import Mathlib

/-!
Shallow embedding of the unlib value types, translated from
src/unlib/metric.py and src/unlib/time_domain.py.

Modelling conventions:
- Python floats are modelled as exact rationals (`ℚ`); division by zero
  therefore yields `0` in the model where Python would raise
  `ZeroDivisionError`, and the float specials inf/nan are outside the model.
- Python exceptions are modelled with the `Err` type and `Except`.
- A Python method body that can fall through without an explicit
  `return`/`raise` is modelled as returning `Option` (with `none` for
  Python's implicit `None`).
- Dynamically typed operands (`other: Any`) are modelled by small sum
  types with one tag per `isinstance` branch of the source, plus a tag
  standing for an operand of any other Python type.
-/

/-- The kinds of Python exception the library can surface. -/
inductive Err where
  | runtimeError (msg : String)
  | valueError (msg : String)
  | typeError (msg : String)
  | attributeError (msg : String)
  deriving DecidableEq

/-! ## Scale (metric.py, class Scale) -/

/-- Enumeration `Scale` of metric.py. -/
inductive Scale where
  | NANO
  | MICRO
  | MILLI
  | UNIT
  | KILO
  | MEGA
  | GIGA
  deriving DecidableEq

/-- The enum member value (`Scale.NANO.value == 1e-9` and so on). -/
def Scale.value : Scale → ℚ
  | .NANO => 1 / 1000000000
  | .MICRO => 1 / 1000000
  | .MILLI => 1 / 1000
  | .UNIT => 1
  | .KILO => 1000
  | .MEGA => 1000000
  | .GIGA => 1000000000

/-- `Scale.to_str` of metric.py. -/
def Scale.to_str : Scale → String
  | .NANO => "n"
  | .MICRO => "u"
  | .MILLI => "m"
  | .UNIT => ""
  | .KILO => "K"
  | .MEGA => "M"
  | .GIGA => "G"

/-- Iteration order of `for scale in Scale` (the enum definition order). -/
def Scale.ladder : List Scale :=
  [.NANO, .MICRO, .MILLI, .UNIT, .KILO, .MEGA, .GIGA]

/-- The single-character branch of `Scale.value_of` (metric.py lines 41-57):
dispatch on the first character of the stripped string. -/
def Scale.ofChar (c : Char) : Except Err Scale :=
  if c = 'n' then .ok .NANO
  else if c = 'u' then .ok .MICRO
  else if c = 'm' then .ok .MILLI
  else if c = 'K' then .ok .KILO
  else if c = 'M' then .ok .MEGA
  else if c = 'G' then .ok .GIGA
  else .error (.runtimeError "Unknown scale")

/-! ## MetricValue (metric.py, class MetricValue) -/

/-- The `MetricValue` triple: magnitude, scale, physical-unit string. -/
structure MetricValue where
  value : ℚ
  scale : Scale
  phys_unit : String
  deriving DecidableEq

/-- `MetricValue.to_float` for a `Scale` argument (for which
`Scale.value_of` is the identity). -/
def MetricValue.to_float (m : MetricValue) (target : Scale) : ℚ :=
  m.value * m.scale.value / target.value

/-- `MetricValue.in_unit` for a `Scale` argument. -/
def MetricValue.in_unit (m : MetricValue) (target : Scale) : MetricValue :=
  ⟨m.value * m.scale.value / target.value, target, m.phys_unit⟩

/-- The loop condition of `MetricValue.optimize`:
`1000 > abs(self.to_float(scale)) >= 1`. -/
def MetricValue.band (m : MetricValue) (sc : Scale) : Bool :=
  decide (|m.to_float sc| < 1000) && decide (1 ≤ |m.to_float sc|)

/-- `MetricValue.optimize`: first ladder scale whose converted magnitude
satisfies the band condition, else the nano fallback. -/
def MetricValue.optimize (m : MetricValue) : MetricValue :=
  match Scale.ladder.find? m.band with
  | some sc => m.in_unit sc
  | none => m.in_unit Scale.NANO

/-- `MetricValue.__abs__`. -/
def MetricValue.abs0 (m : MetricValue) : MetricValue :=
  ⟨|m.value|, m.scale, m.phys_unit⟩

/-- The common body of `__add__`/`__sub__` before `optimize`, on the
branch where both operands are `MetricValue`s with equal `phys_unit`. -/
def MetricValue.sub0 (a b : MetricValue) : MetricValue :=
  ⟨a.value - b.to_float a.scale, a.scale, a.phys_unit⟩

/-- Body of `__eq__` on the branch where the operand is a `MetricValue`
with equal `phys_unit`: `abs(self - other).to_float(Scale.NANO) < 0.001`. -/
def MetricValue.eqv (a b : MetricValue) : Bool :=
  decide (((a.sub0 b).optimize.abs0.to_float Scale.NANO) < 1 / 1000)

/-- A Python operand handed to a `MetricValue` operator: either a
`MetricValue` or a value of any other type. -/
inductive MVOperand where
  | mv (m : MetricValue)
  | nonMV

/-- `MetricValue.__add__`: unit mismatch and non-`MetricValue` operands
both raise `RuntimeError`. -/
def MetricValue.addOp (a : MetricValue) : MVOperand → Except Err (Option MetricValue)
  | .mv b =>
    if a.phys_unit ≠ b.phys_unit then
      .error (.runtimeError "Values can be added only if they share the same physical unit")
    else
      .ok (some ((⟨a.value + b.to_float a.scale, a.scale, a.phys_unit⟩ : MetricValue).optimize))
  | .nonMV => .error (.runtimeError "Metric values can only be added to other metric values")

/-- `MetricValue.__sub__`: the method has no `else` branch for a
non-`MetricValue` operand, so Python falls through and returns `None`. -/
def MetricValue.subOp (a : MetricValue) : MVOperand → Except Err (Option MetricValue)
  | .mv b =>
    if a.phys_unit ≠ b.phys_unit then
      .error (.runtimeError "Values can be subtracted only if they share the same physical unit")
    else
      .ok (some ((a.sub0 b).optimize))
  | .nonMV => .ok none

/-- `MetricValue.__mul__` / `__rmul__` for a numeric scalar. -/
def MetricValue.mul (a : MetricValue) (s : ℚ) : MetricValue :=
  (⟨a.value * s, a.scale, a.phys_unit⟩ : MetricValue).optimize

/-- `MetricValue.__truediv__` for a numeric scalar. -/
def MetricValue.div (a : MetricValue) (s : ℚ) : MetricValue :=
  (⟨a.value / s, a.scale, a.phys_unit⟩ : MetricValue).optimize

/-- `MetricValue.__gt__`. -/
def MetricValue.gtOp (a : MetricValue) : MVOperand → Except Err Bool
  | .mv b =>
    if a.phys_unit ≠ b.phys_unit then
      .error (.runtimeError "Values can be compared only if they share the same physical unit")
    else
      .ok (decide (a.value > b.to_float a.scale))
  | .nonMV => .error (.runtimeError "MetricValue can only be compared to another metric value")

/-- `MetricValue.__ge__`: strictly-greater OR tolerance-equal. -/
def MetricValue.geOp (a : MetricValue) : MVOperand → Except Err Bool
  | .mv b =>
    if a.phys_unit ≠ b.phys_unit then
      .error (.runtimeError "Values can be compared only if they share the same physical unit")
    else
      .ok (decide (a.value > b.to_float a.scale) || a.eqv b)
  | .nonMV => .error (.runtimeError "MetricValue can only be compared to another metric value")

/-- `MetricValue.__lt__`. -/
def MetricValue.ltOp (a : MetricValue) : MVOperand → Except Err Bool
  | .mv b =>
    if a.phys_unit ≠ b.phys_unit then
      .error (.runtimeError "Values can be compared only if they share the same physical unit")
    else
      .ok (decide (a.value < b.to_float a.scale))
  | .nonMV => .error (.runtimeError "MetricValue can only be compared to another metric value")

/-- `MetricValue.__le__`: strictly-less OR tolerance-equal. -/
def MetricValue.leOp (a : MetricValue) : MVOperand → Except Err Bool
  | .mv b =>
    if a.phys_unit ≠ b.phys_unit then
      .error (.runtimeError "Values can be compared only if they share the same physical unit")
    else
      .ok (decide (a.value < b.to_float a.scale) || a.eqv b)
  | .nonMV => .error (.runtimeError "MetricValue can only be compared to another metric value")

/-- `MetricValue.__eq__`. -/
def MetricValue.eqOp (a : MetricValue) : MVOperand → Except Err Bool
  | .mv b =>
    if a.phys_unit ≠ b.phys_unit then
      .error (.runtimeError "Values can be compared only if they share the same physical unit")
    else
      .ok (a.eqv b)
  | .nonMV => .error (.runtimeError "MetricValue can only be compared to another metric value")

/-! ## TimeUnit (time_domain.py, class TimeUnit) -/

/-- Enumeration `TimeUnit` of time_domain.py. -/
inductive TimeUnit where
  | NS
  | US
  | MS
  | S
  | KS
  deriving DecidableEq

/-- The `IntEnum` member value: the multiplier in nanoseconds. -/
def TimeUnit.value : TimeUnit → ℚ
  | .NS => 1
  | .US => 1000
  | .MS => 1000000
  | .S => 1000000000
  | .KS => 1000000000000

/-- `TimeUnit.to_str`. -/
def TimeUnit.to_str : TimeUnit → String
  | .NS => "ns"
  | .US => "us"
  | .MS => "ms"
  | .S => "s"
  | .KS => "ks"

/-! ## Duration (time_domain.py, class Duration) -/

/-- The `Duration` pair: magnitude and time unit. -/
structure Duration where
  value : ℚ
  time_unit : TimeUnit
  deriving DecidableEq

/-- `Duration.to_float` for a `TimeUnit` argument (for which
`TimeUnit.value_of` is the identity). -/
def Duration.to_float (d : Duration) (target : TimeUnit) : ℚ :=
  d.value * d.time_unit.value / target.value

/-- `Duration.in_unit` for a `TimeUnit` argument. -/
def Duration.in_unit (d : Duration) (target : TimeUnit) : Duration :=
  ⟨d.value * d.time_unit.value / target.value, target⟩

/-- The loop condition of `Duration.optimize`:
`1000 > self.to_float(time_unit) >= 1` — on the signed value, no `abs`. -/
def Duration.band (d : Duration) (u : TimeUnit) : Bool :=
  decide (d.to_float u < 1000) && decide (1 ≤ d.to_float u)

/-- The scan order of `Duration.optimize`: largest unit first. -/
def TimeUnit.scanOrder : List TimeUnit :=
  [TimeUnit.KS, TimeUnit.S, TimeUnit.MS, TimeUnit.US, TimeUnit.NS]

/-- `Duration.optimize`: first unit of the scan order satisfying the
band condition, else the ns fallback. -/
def Duration.optimize (d : Duration) : Duration :=
  match TimeUnit.scanOrder.find? d.band with
  | some u => d.in_unit u
  | none => d.in_unit TimeUnit.NS

/-- `Duration.__abs__`. -/
def Duration.abs0 (d : Duration) : Duration :=
  ⟨|d.value|, d.time_unit⟩

/-- The body of `__sub__` before `optimize`, on the `Duration` branch. -/
def Duration.sub0 (a b : Duration) : Duration :=
  ⟨a.value - b.to_float a.time_unit, a.time_unit⟩

/-- `ONE_PICOSECOND = Duration.value_of("0.001ns")` (time_domain.py
line 293); the parsed constant is `0.001 ns`.  The parse equation is
proved below once the parser is defined. -/
def ONE_PICOSECOND : Duration := ⟨1 / 1000, TimeUnit.NS⟩

/-- Body of `Duration.__lt__` on the `Duration` branch. -/
def Duration.ltB (a b : Duration) : Bool :=
  decide (a.value < b.to_float a.time_unit)

/-- Body of `Duration.__eq__` on the `Duration` branch:
`abs(self - other) < ONE_PICOSECOND` where `self - other` optimizes. -/
def Duration.eqB (a b : Duration) : Bool :=
  ((a.sub0 b).optimize.abs0).ltB ONE_PICOSECOND

/-- A Python operand handed to a `Duration` operator: either a
`Duration` or a value of any other type. -/
inductive DOperand where
  | dur (d : Duration)
  | nonDur

/-- `Duration.__add__`: no `else` branch, so a non-`Duration` operand
makes Python return `None`. -/
def Duration.addOp (a : Duration) : DOperand → Except Err (Option Duration)
  | .dur b =>
    .ok (some ((⟨a.value + b.to_float a.time_unit, a.time_unit⟩ : Duration).optimize))
  | .nonDur => .ok none

/-- `Duration.__sub__`: no `else` branch, so a non-`Duration` operand
makes Python return `None`. -/
def Duration.subOp (a : Duration) : DOperand → Except Err (Option Duration)
  | .dur b => .ok (some ((a.sub0 b).optimize))
  | .nonDur => .ok none

/-- `Duration.__mul__` / `__rmul__` for a numeric scalar (no optimize). -/
def Duration.mul (a : Duration) (s : ℚ) : Duration :=
  ⟨a.value * s, a.time_unit⟩

/-- `Duration.__truediv__` for a numeric scalar (no optimize). -/
def Duration.div (a : Duration) (s : ℚ) : Duration :=
  ⟨a.value / s, a.time_unit⟩

/-- `Duration.__gt__`. -/
def Duration.gtOp (a : Duration) : DOperand → Except Err Bool
  | .dur b => .ok (decide (a.value > b.to_float a.time_unit))
  | .nonDur => .error (.runtimeError "Duration can only be compared to another duration")

/-- `Duration.__ge__`. -/
def Duration.geOp (a : Duration) : DOperand → Except Err Bool
  | .dur b => .ok (decide (a.value > b.to_float a.time_unit) || a.eqB b)
  | .nonDur => .error (.runtimeError "Duration can only be compared to another duration")

/-- `Duration.__lt__`. -/
def Duration.ltOp (a : Duration) : DOperand → Except Err Bool
  | .dur b => .ok (a.ltB b)
  | .nonDur => .error (.runtimeError "Duration can only be compared to another duration")

/-- `Duration.__le__`. -/
def Duration.leOp (a : Duration) : DOperand → Except Err Bool
  | .dur b => .ok (a.ltB b || a.eqB b)
  | .nonDur => .error (.runtimeError "Duration can only be compared to another duration")

/-- `Duration.__eq__`. -/
def Duration.eqOp (a : Duration) : DOperand → Except Err Bool
  | .dur b => .ok (a.eqB b)
  | .nonDur => .error (.runtimeError "Duration can only be compared to another duration")

/-! ## FrequencyUnit and Frequency (time_domain.py) -/

/-- Enumeration `FrequencyUnit`. -/
inductive FrequencyUnit where
  | GHz
  | MHz
  | KHz
  | Hz
  deriving DecidableEq

/-- `FrequencyUnit.period_in_seconds`. -/
def FrequencyUnit.period_in_seconds : FrequencyUnit → ℚ
  | .Hz => 1
  | .KHz => 1 / 1000
  | .MHz => 1 / 1000000
  | .GHz => 1 / 1000000000

/-- `FrequencyUnit.matching_time_unit`. -/
def FrequencyUnit.matching_time_unit : FrequencyUnit → TimeUnit
  | .Hz => .S
  | .KHz => .MS
  | .MHz => .US
  | .GHz => .NS

/-- The `Frequency` pair: magnitude and frequency unit. -/
structure Frequency where
  freq : ℚ
  unit : FrequencyUnit
  deriving DecidableEq

/-- `Frequency.as_float` with a `FrequencyUnit` argument (for which
`FrequencyUnit.value_of` is the identity): the cross-ratio of periods. -/
def Frequency.asFloatU (f : Frequency) (u : FrequencyUnit) : ℚ :=
  f.freq * u.period_in_seconds / f.unit.period_in_seconds

/-- A Python operand handed to a `Frequency` operator: a `Frequency`,
a plain number (`int` or `float`), or a value of any other type. -/
inductive FOperand where
  | freq (f : Frequency)
  | num (x : ℚ)
  | other

/-- `Frequency.__add__`. -/
def Frequency.addOp (f : Frequency) : FOperand → Except Err Frequency
  | .freq g => .ok ⟨f.freq + g.asFloatU f.unit, f.unit⟩
  | _ => .error (.valueError "Frequency can only be added to another Frequency")

/-- `Frequency.__sub__`. -/
def Frequency.subOp (f : Frequency) : FOperand → Except Err Frequency
  | .freq g => .ok ⟨f.freq - g.asFloatU f.unit, f.unit⟩
  | _ => .error (.valueError "Frequency can only be subtracted from another Frequency")

/-- `Frequency.__rtruediv__` (`other / self`): for a plain-number
operand the result is `Duration(1 / self.as_float(), matching unit)`;
the numerator `other` is not used by the source.  (`1 / 0.0` would
raise `ZeroDivisionError` in Python; in the ℚ model `1 / 0 = 0`.) -/
def Frequency.rtruedivOp (op : FOperand) (f : Frequency) : Except Err Duration
  := match op with
  | .num _ => .ok ⟨1 / f.freq, f.unit.matching_time_unit⟩
  | _ => .error (.valueError "Frequency can only divide a number")

/-- `Frequency.__truediv__` (`self / other`). -/
def Frequency.truedivOp (f : Frequency) : FOperand → Except Err Frequency
  | .num x => .ok ⟨f.freq / x, f.unit⟩
  | _ => .error (.valueError "Frequency can only be divided by a number")

/-- `Frequency.__eq__`: returns `False` (it does not raise) for a
non-`Frequency` operand; exact rational equality otherwise. -/
def Frequency.eqOp (f : Frequency) : FOperand → Bool
  | .freq g =>
    if f.unit = g.unit then decide (f.freq = g.freq)
    else decide (f.freq = g.asFloatU f.unit)
  | _ => false

/-- `Frequency.__lt__`: raises `TypeError` for a non-`Frequency` operand. -/
def Frequency.ltOp (f : Frequency) : FOperand → Except Err Bool
  | .freq g => .ok (decide (f.freq < g.asFloatU f.unit))
  | _ => .error (.typeError "Cannot compare")

/-! ## Character-level parsing machinery

The regular expressions of the source are modelled as deterministic
character-level parsers over `List Char`.  Python's `\s` and `\d` are
modelled by their ASCII meaning, and `str.lower`/`str.strip` by their
ASCII action; the library's grammars only produce and consume ASCII. -/

/-- ASCII whitespace, the model of regex `\s` and of `str.strip`. -/
def isPyWs (c : Char) : Bool :=
  c = ' ' || c = '\t' || c = '\n' || c = '\r' || c = '\x0b' || c = '\x0c'

/-- ASCII decimal digits, the model of regex `\d`. -/
def isDigitChar (c : Char) : Bool :=
  decide (c ∈ ['0', '1', '2', '3', '4', '5', '6', '7', '8', '9'])

/-- Numeric value of one digit character. -/
def charDigitVal (c : Char) : ℕ := c.toNat - 48

/-- Value of a digit run, most significant first. -/
def digitsVal (ds : List Char) : ℕ :=
  ds.foldl (fun a c => 10 * a + charDigitVal c) 0

/-- Drop trailing whitespace. -/
def rtrimWs (cs : List Char) : List Char :=
  (cs.reverse.dropWhile isPyWs).reverse

/-- Model of Python `str.strip()`. -/
def pyStrip (cs : List Char) : List Char :=
  rtrimWs (cs.dropWhile isPyWs)

/-- Model of Python `str.lower()` on ASCII text. -/
def pyLowerChar (c : Char) : Char :=
  if 'A' ≤ c ∧ c ≤ 'Z' then Char.ofNat (c.toNat + 32) else c

/-- Model of Python `str.lower()`. -/
def pyLower (cs : List Char) : List Char :=
  cs.map pyLowerChar

/-- The parts of a matched numeric literal: sign, value of the integer
digits, value and count of the fraction digits, signed exponent.  The
parsers stay in this ℚ-free syntactic form; `NumParts.val` is the
number Python's `float()` makes of the matched text. -/
structure NumParts where
  neg : Bool
  ipv : ℕ
  fnum : ℕ
  flen : ℕ
  ex : ℤ
  deriving DecidableEq

/-- The rational value of a matched literal. -/
def NumParts.val (p : NumParts) : ℚ :=
  let mag : ℚ := ((p.ipv : ℚ) + (p.fnum : ℚ) / 10 ^ p.flen) * (10 : ℚ) ^ p.ex
  if p.neg then -mag else mag

/-- The optional fraction group `(?:\.\d+)?`: greedy, and skipped
cleanly when the dot is not followed by a digit.  Returns the fraction
digits' value and count, and the rest. -/
def parseFracPart (cs : List Char) : ℕ × ℕ × List Char :=
  match cs with
  | '.' :: t =>
    let fd := t.takeWhile isDigitChar
    if fd.isEmpty then (0, 0, cs)
    else (digitsVal fd, fd.length, t.dropWhile isDigitChar)
  | _ => (0, 0, cs)

/-- An optional `[+-]` sign: whether it is a minus, and the rest. -/
def signSplit (t : List Char) : Bool × List Char :=
  match t with
  | '+' :: t2 => (false, t2)
  | '-' :: t2 => (true, t2)
  | _ => (false, t)

/-- The optional exponent group `(?:[eE][+-]?\d+)?`: greedy, skipped
cleanly (rest unchanged) when no digit follows the marker and its
optional sign. -/
def parseExpPart (cs : List Char) : ℤ × List Char :=
  match cs with
  | [] => (0, [])
  | c :: t =>
    if c = 'e' ∨ c = 'E' then
      let sg := signSplit t
      let ed := sg.2.takeWhile isDigitChar
      if ed.isEmpty then (0, c :: t)
      else (if sg.1 then -(digitsVal ed : ℤ) else (digitsVal ed : ℤ),
        sg.2.dropWhile isDigitChar)
    else (0, c :: t)

/-- The optional leading sign `-?`. -/
def parseSign (cs : List Char) : Bool × List Char :=
  match cs with
  | '-' :: t => (true, t)
  | _ => (false, cs)

/-- Greedy parse of the shared numeric-literal grammar
`-?\d+(?:\.\d+)?(?:[eE][+-]?\d+)?`, returning the parts of the longest
literal prefix together with the remaining characters. -/
def parseNumeral (cs : List Char) : Option (NumParts × List Char) :=
  let sg := parseSign cs
  let ip := sg.2.takeWhile isDigitChar
  if ip.isEmpty then none
  else
    let fr := parseFracPart (sg.2.dropWhile isDigitChar)
    let ex := parseExpPart fr.2.2
    some (⟨sg.1, digitsVal ip, fr.1, fr.2.1, ex.1⟩, ex.2)

/-- One backtracking attempt of the value group: match the literal on
exactly the first `n` characters and run the tail parser on the rest. -/
def tryNumSplit {α : Type} (rp : List Char → Option α) (cs : List Char) (n : ℕ) :
    Option (NumParts × α) :=
  match parseNumeral (cs.take n) with
  | some (p, []) =>
    match rp (cs.drop n) with
    | some a => some (p, a)
    | none => none
  | _ => none

/-- Backtracking search over value-group lengths, longest first — the
order in which the regex engine offers candidates for the greedy
leading group. -/
def searchNumSplit {α : Type} (rp : List Char → Option α) (cs : List Char) :
    ℕ → Option (NumParts × α)
  | 0 => none
  | n + 1 =>
    match tryNumSplit rp cs (n + 1) with
    | some r => some r
    | none => searchNumSplit rp cs n

/-- The unit alternation `(ks|s|ms|us|ns|KS|S|MS|US|NS)` of
`Duration.__matcher` followed by `TimeUnit.value_of` (which lower-cases
the captured token): the token must be matched exactly. -/
def durUnitOfToken (cs : List Char) : Option TimeUnit :=
  if cs = ['k', 's'] ∨ cs = ['K', 'S'] then some .KS
  else if cs = ['s'] ∨ cs = ['S'] then some .S
  else if cs = ['m', 's'] ∨ cs = ['M', 'S'] then some .MS
  else if cs = ['u', 's'] ∨ cs = ['U', 'S'] then some .US
  else if cs = ['n', 's'] ∨ cs = ['N', 'S'] then some .NS
  else none

/-- What must follow the value group in `Duration.__matcher`:
`\s*(unit)\s*$`. -/
def durRestParse (rest : List Char) : Option TimeUnit :=
  durUnitOfToken (rtrimWs (rest.dropWhile isPyWs))

/-- `Duration.__matcher.match`, as value parts and unit of the
successful match. -/
def Duration.parseCore (cs : List Char) : Option (NumParts × TimeUnit) :=
  let cs1 := cs.dropWhile isPyWs
  searchNumSplit durRestParse cs1 cs1.length

/-- `Duration.value_of` on a string argument. -/
def Duration.value_of (s : String) : Except Err Duration :=
  match Duration.parseCore s.data with
  | some (p, u) => .ok ⟨p.val, u⟩
  | none => .error (.runtimeError ("Unable to parse \"" ++ s ++ "\" as duration"))

/-- What must follow the value group in `MetricValue.__matcher`:
`\s*(n|u|m|K|M|G|)(\S+)\s*$`, with the one-character scale alternative
given up when that would leave `\S+` nothing to match. -/
def mvRestParse (rest : List Char) : Option (Scale × List Char) :=
  let r2 := rtrimWs (rest.dropWhile isPyWs)
  if r2.any isPyWs then none
  else
    match r2 with
    | [] => none
    | c :: t =>
      match Scale.ofChar c with
      | .ok sc => if t.isEmpty then some (Scale.UNIT, r2) else some (sc, t)
      | .error _ => some (Scale.UNIT, r2)

/-- `MetricValue.__matcher.match`, as value parts, scale and unit text
of the successful match. -/
def MetricValue.parseCore (cs : List Char) : Option (NumParts × Scale × List Char) :=
  let cs1 := cs.dropWhile isPyWs
  searchNumSplit mvRestParse cs1 cs1.length

/-- `MetricValue.value_of` on a string argument. -/
def MetricValue.value_of (s : String) : Except Err MetricValue :=
  match MetricValue.parseCore s.data with
  | some (p, sc, pu) => .ok ⟨p.val, sc, String.mk pu⟩
  | none => .error (.runtimeError ("Unable to parse \"" ++ s ++ "\" as duration"))

/-- `Duration.__str__`, parameterised by the float renderer `nr`
(Python renders `self.value` with `str`). -/
def Duration.str (nr : ℚ → String) (d : Duration) : String :=
  nr d.value ++ " " ++ d.time_unit.to_str

/-- `MetricValue.__str__`, parameterised by the float renderer `nr`. -/
def MetricValue.str (nr : ℚ → String) (m : MetricValue) : String :=
  nr m.value ++ " " ++ m.scale.to_str ++ m.phys_unit

/-! ## Python float() and str.replace, for Frequency parsing -/

/-- Worker for `replaceAll`: scan left to right, with `k` characters of
an already-matched occurrence still to be skipped. -/
def replaceAllGo (pat : List Char) : List Char → ℕ → List Char
  | [], _ => []
  | _ :: t, k + 1 => replaceAllGo pat t k
  | c :: t, 0 =>
    if pat ≠ [] ∧ pat.isPrefixOf (c :: t) then replaceAllGo pat t (pat.length - 1)
    else c :: replaceAllGo pat t 0

/-- Model of Python `str.replace(pat, "")`: remove all non-overlapping
occurrences of `pat`, scanning left to right. -/
def replaceAll (cs pat : List Char) : List Char :=
  replaceAllGo pat cs 0

/-- Model of Python `str.endswith`. -/
def endsWithL (cs pat : List Char) : Bool :=
  decide (pat.length ≤ cs.length) && decide (cs.drop (cs.length - pat.length) = pat)

/-- Exponent of a Python float literal: the same `[eE][+-]?\d+` shape,
accepted only when it consumes the whole remaining input. -/
def pyExpPart (cs : List Char) : Option ℤ :=
  if (parseExpPart cs).2.isEmpty then some (parseExpPart cs).1 else none

/-- The accepted shape of a Python float literal: optional surrounding
whitespace, optional sign, `\d+(\.\d*)?|\.\d+`, optional exponent,
consuming the whole input.  The float specials `inf`/`nan` and
underscore digit separators are outside the rational model. -/
def pyFloatParse (cs : List Char) : Option NumParts :=
  let sg := signSplit (pyStrip cs)
  let ip := sg.2.takeWhile isDigitChar
  match sg.2.dropWhile isDigitChar with
  | '.' :: t2 =>
    let fd := t2.takeWhile isDigitChar
    if ip.isEmpty && fd.isEmpty then none
    else
      match pyExpPart (t2.dropWhile isDigitChar) with
      | some e => some ⟨sg.1, digitsVal ip, digitsVal fd, fd.length, e⟩
      | none => none
  | cs2 =>
    if ip.isEmpty then none
    else
      match pyExpPart cs2 with
      | some e => some ⟨sg.1, digitsVal ip, 0, 0, e⟩
      | none => none

/-- Model of Python `float(str)` on finite decimal literals. -/
def pyFloat (cs : List Char) : Except Err ℚ :=
  match pyFloatParse cs with
  | some p => .ok p.val
  | none => .error (.valueError "could not convert string to float")

/-! ## String-driven constructors for the frequency types -/

/-- A Python argument to `FrequencyUnit.value_of`: already a
`FrequencyUnit`, a string, or a value of any other type. -/
inductive FUSrc where
  | fu (u : FrequencyUnit)
  | str (s : String)
  | other

/-- `FrequencyUnit.value_of`.  On the `"thz"` branch the source
executes `return FrequencyUnit.THz`, but the enum defines no member
`THz`, so Python raises `AttributeError` instead of returning or
raising the declared `ValueError`. -/
def FrequencyUnit.value_of : FUSrc → Except Err FrequencyUnit
  | .fu u => .ok u
  | .str s =>
    let t := pyLower (pyStrip s.data)
    if t = ['t', 'h', 'z'] then
      .error (.attributeError "type object FrequencyUnit has no attribute THz")
    else if t = ['g', 'h', 'z'] then .ok .GHz
    else if t = ['m', 'h', 'z'] then .ok .MHz
    else if t = ['k', 'h', 'z'] then .ok .KHz
    else if t = ['h', 'z'] then .ok .Hz
    else .error (.valueError ("Unknown frequency unit: " ++ s))
  | .other => .error (.valueError "Unknown frequency unit")

/-- `Frequency.as_float`: with no argument the raw magnitude, with a
unit argument the cross-ratio of periods after resolving the unit. -/
def Frequency.as_float (f : Frequency) : Option FUSrc → Except Err ℚ
  | none => .ok f.freq
  | some u =>
    match FrequencyUnit.value_of u with
    | .ok fu => .ok (f.freq * fu.period_in_seconds / f.unit.period_in_seconds)
    | .error e => .error e

/-- `Frequency.in_unit`: `Frequency(self.as_float(unit),
FrequencyUnit.value_of(unit))`, arguments evaluated left to right. -/
def Frequency.in_unit (f : Frequency) (u : FUSrc) : Except Err Frequency :=
  match f.as_float (some u) with
  | .ok q =>
    match FrequencyUnit.value_of u with
    | .ok fu => .ok ⟨q, fu⟩
    | .error e => .error e
  | .error e => .error e

/-- A Python argument to `Frequency.value_of`: already a `Frequency`,
a string, or a value of any other type. -/
inductive FSrc where
  | freq (f : Frequency)
  | str (s : String)
  | other

/-- `Frequency.value_of`: strip and lower-case, then test the suffixes
`ghz`, `mhz`, `khz`, `hz` in that order; on a hit, `float()` of the
cleaned text with all occurrences of the suffix removed
(`str.replace`), letting `float`'s `ValueError` escape unhandled. -/
def Frequency.value_of : FSrc → Except Err Frequency
  | .freq f => .ok f
  | .str s =>
    let t := pyLower (pyStrip s.data)
    if endsWithL t ['g', 'h', 'z'] then
      (pyFloat (replaceAll t ['g', 'h', 'z'])).map fun q => ⟨q, .GHz⟩
    else if endsWithL t ['m', 'h', 'z'] then
      (pyFloat (replaceAll t ['m', 'h', 'z'])).map fun q => ⟨q, .MHz⟩
    else if endsWithL t ['k', 'h', 'z'] then
      (pyFloat (replaceAll t ['k', 'h', 'z'])).map fun q => ⟨q, .KHz⟩
    else if endsWithL t ['h', 'z'] then
      (pyFloat (replaceAll t ['h', 'z'])).map fun q => ⟨q, .Hz⟩
    else .error (.runtimeError ("Unable to parse [" ++ s ++ "]"))
  | .other => .error (.valueError "Unable to parse")

/-- Everything before the matched suffix — the spec's definition of the
numeric prefix of a frequency string ("the numeric prefix is everything
before the matched suffix"), for comparison with what the code does. -/
def specNumPrefixOf (t pat : List Char) : List Char :=
  t.take (t.length - pat.length)

/-- A continuation after a complete numeric literal that the greedy
literal parse cannot consume into: empty, or starting with a character
that can extend no digit run, fraction or exponent. -/
def SafeTail (tail : List Char) : Prop :=
  ∀ c t, tail = c :: t → isDigitChar c = false ∧ c ≠ '.' ∧ c ≠ 'e' ∧ c ≠ 'E'

/-! ## Helper lemmas -/

theorem scale_value_pos (sc : Scale) : 0 < sc.value := by
  cases sc <;> norm_num [Scale.value]

theorem timeUnit_value_pos (u : TimeUnit) : 0 < u.value := by
  cases u <;> norm_num [TimeUnit.value]

theorem mv_optimize_eq (m : MetricValue) :
    m.optimize = (match Scale.ladder.find? m.band with
      | some sc => m.in_unit sc
      | none => m.in_unit Scale.NANO) := rfl

theorem duration_optimize_eq (d : Duration) :
    d.optimize = (match TimeUnit.scanOrder.find? d.band with
      | some u => d.in_unit u
      | none => d.in_unit TimeUnit.NS) := rfl

theorem mv_optimize_exists_in_unit (m : MetricValue) :
    ∃ sc, m.optimize = m.in_unit sc := by
  rw [mv_optimize_eq]
  cases h : Scale.ladder.find? m.band with
  | some sc => exact ⟨sc, rfl⟩
  | none => exact ⟨Scale.NANO, rfl⟩

theorem duration_optimize_exists_in_unit (d : Duration) :
    ∃ u, d.optimize = d.in_unit u := by
  rw [duration_optimize_eq]
  cases h : TimeUnit.scanOrder.find? d.band with
  | some u => exact ⟨u, rfl⟩
  | none => exact ⟨TimeUnit.NS, rfl⟩

theorem mv_in_unit_to_float (m : MetricValue) (u t : Scale) :
    (m.in_unit u).to_float t = m.to_float t := by
  have hu := scale_value_pos u
  simp only [MetricValue.in_unit, MetricValue.to_float]
  field_simp

theorem duration_in_unit_to_float (d : Duration) (u t : TimeUnit) :
    (d.in_unit u).to_float t = d.to_float t := by
  have hu := timeUnit_value_pos u
  simp only [Duration.in_unit, Duration.to_float]
  field_simp

theorem mv_optimize_to_float (m : MetricValue) (t : Scale) :
    m.optimize.to_float t = m.to_float t := by
  obtain ⟨sc, h⟩ := mv_optimize_exists_in_unit m
  rw [h, mv_in_unit_to_float]

theorem duration_optimize_to_float (d : Duration) (t : TimeUnit) :
    d.optimize.to_float t = d.to_float t := by
  obtain ⟨u, h⟩ := duration_optimize_exists_in_unit d
  rw [h, duration_in_unit_to_float]

theorem MetricValue.optimize_phys_unit (m : MetricValue) :
    m.optimize.phys_unit = m.phys_unit := by
  obtain ⟨sc, h⟩ := mv_optimize_exists_in_unit m
  rw [h]
  rfl

theorem duration_sub0_mul (a b : Duration) :
    (a.sub0 b).value * (a.sub0 b).time_unit.value
      = a.to_float TimeUnit.NS - b.to_float TimeUnit.NS := by
  have hne := ne_of_gt (timeUnit_value_pos a.time_unit)
  simp only [Duration.sub0, Duration.to_float]
  rw [show ((TimeUnit.NS.value : ℚ)) = 1 from rfl, div_one, div_one, sub_mul,
    div_mul_cancel₀ _ hne]

theorem Duration.eqB_iff (a b : Duration) :
    a.eqB b = true ↔
      |a.to_float TimeUnit.NS - b.to_float TimeUnit.NS| < 1 / 1000 := by
  obtain ⟨u, hu⟩ := duration_optimize_exists_in_unit (a.sub0 b)
  have hupos := timeUnit_value_pos u
  have h1 : a.eqB b = decide (|(a.sub0 b).value * (a.sub0 b).time_unit.value / u.value|
      < 1 / 1000 * TimeUnit.NS.value / u.value) := by
    simp only [Duration.eqB, hu, Duration.ltB, Duration.abs0, Duration.in_unit,
      Duration.to_float, ONE_PICOSECOND]
  rw [h1, decide_eq_true_eq, show ((TimeUnit.NS.value : ℚ)) = 1 from rfl, mul_one,
    abs_div, abs_of_pos hupos, div_lt_div_iff_of_pos_right hupos, duration_sub0_mul]

theorem mv_sub0_mul (a b : MetricValue) :
    (a.sub0 b).value * (a.sub0 b).scale.value
      = a.value * a.scale.value - b.value * b.scale.value := by
  have hne := ne_of_gt (scale_value_pos a.scale)
  simp only [MetricValue.sub0, MetricValue.to_float]
  rw [sub_mul, div_mul_cancel₀ _ hne]

theorem MetricValue.abs_diff_nano (a b : MetricValue) :
    (a.sub0 b).optimize.abs0.to_float Scale.NANO
      = |a.to_float Scale.NANO - b.to_float Scale.NANO| := by
  obtain ⟨u, hu⟩ := mv_optimize_exists_in_unit (a.sub0 b)
  have hupos := scale_value_pos u
  have hnpos := scale_value_pos Scale.NANO
  rw [hu]
  simp only [MetricValue.abs0, MetricValue.in_unit, MetricValue.to_float]
  calc |(a.sub0 b).value * (a.sub0 b).scale.value / u.value| * u.value / Scale.NANO.value
      = |(a.sub0 b).value * (a.sub0 b).scale.value| / Scale.NANO.value := by
        rw [abs_div, abs_of_pos hupos, div_mul_cancel₀ _ (ne_of_gt hupos)]
    _ = |a.value * a.scale.value / Scale.NANO.value
          - b.value * b.scale.value / Scale.NANO.value| := by
        rw [mv_sub0_mul, ← sub_div, abs_div, abs_of_pos hnpos]

theorem MetricValue.eqv_iff (a b : MetricValue) :
    a.eqv b = true ↔
      |a.to_float Scale.NANO - b.to_float Scale.NANO| < 1 / 1000 := by
  have h1 : a.eqv b = decide ((a.sub0 b).optimize.abs0.to_float Scale.NANO < 1 / 1000) := rfl
  rw [h1, decide_eq_true_eq, MetricValue.abs_diff_nano]

theorem Duration.eqB_self (d : Duration) : d.eqB d = true :=
  (Duration.eqB_iff d d).mpr (by rw [sub_self, abs_zero]; norm_num)

theorem MetricValue.eqv_self (m : MetricValue) : m.eqv m = true :=
  (MetricValue.eqv_iff m m).mpr (by rw [sub_self, abs_zero]; norm_num)

theorem Duration.band_eq_false_of_neg (d : Duration) (u : TimeUnit) (h : d.value < 0) :
    d.band u = false := by
  have hneg : d.to_float u < 0 :=
    div_neg_of_neg_of_pos (mul_neg_of_neg_of_pos h (timeUnit_value_pos _)) (timeUnit_value_pos _)
  simp only [Duration.band, Bool.and_eq_false_iff, decide_eq_false_iff_not]
  right
  linarith

theorem mv_c1_optimize :
    MetricValue.optimize ⟨9 / 10000, Scale.UNIT, "B"⟩ = ⟨900, Scale.MICRO, "B"⟩ := by
  have h1 : ¬ ((⟨9 / 10000, Scale.UNIT, "B"⟩ : MetricValue).band Scale.NANO = true) := by
    simp only [MetricValue.band, MetricValue.to_float, Scale.value]
    norm_num [le_abs]
  have h2 : (⟨9 / 10000, Scale.UNIT, "B"⟩ : MetricValue).band Scale.MICRO = true := by
    simp only [MetricValue.band, MetricValue.to_float, Scale.value]
    norm_num [abs_lt, le_abs]
  rw [mv_optimize_eq, Scale.ladder, List.find?_cons_of_neg _ h1,
    List.find?_cons_of_pos _ h2]
  norm_num [MetricValue.in_unit, Scale.value]

/-- C1 counterexample: `MetricQuantity(0.0009, unit, "B").optimize()` does
not return `900000 nB` — it returns `900 uB`, because micro qualifies. -/
theorem c1_counterexample :
    MetricValue.optimize ⟨9 / 10000, Scale.UNIT, "B"⟩ = ⟨900, Scale.MICRO, "B"⟩ ∧
    (⟨900, Scale.MICRO, "B"⟩ : MetricValue) ≠ ⟨900000, Scale.NANO, "B"⟩ := by
  refine ⟨mv_c1_optimize, ?_⟩
  simp

/-- C1 (corrected): for `MetricQuantity(0.0009, unit, "B")`, the nano
scale fails the band test (`abs` there is `900000`), but micro satisfies
`1 <= 900 < 1000`, so `optimize()` selects the micro scale and returns
`900 uB` rather than falling back to nano. -/
theorem c1_optimize_picks_micro :
    (⟨9 / 10000, Scale.UNIT, "B"⟩ : MetricValue).band Scale.NANO = false ∧
    (⟨9 / 10000, Scale.UNIT, "B"⟩ : MetricValue).band Scale.MICRO = true ∧
    MetricValue.optimize ⟨9 / 10000, Scale.UNIT, "B"⟩ = ⟨900, Scale.MICRO, "B"⟩ := by
  refine ⟨?_, ?_, mv_c1_optimize⟩
  · simp only [MetricValue.band, MetricValue.to_float, Scale.value]
    norm_num [le_abs]
  · simp only [MetricValue.band, MetricValue.to_float, Scale.value]
    norm_num [abs_lt, le_abs]

/-- C2 counterexample: subtracting a non-`MetricValue` operand from a
`MetricValue` returns Python `None` — no error is raised. -/
theorem c2_counterexample :
    MetricValue.subOp ⟨1, Scale.UNIT, "B"⟩ MVOperand.nonMV = .ok none := rfl

/-- C2 (corrected): wrong-kind operands raise for `MetricValue.__add__`
and all five comparison operators of `MetricValue` and `Duration`, but
`MetricValue.__sub__`, `Duration.__add__` and `Duration.__sub__`
silently return `None`, and `Frequency.__eq__` returns `False`;
`Frequency.__add__`/`__sub__` raise `ValueError`. -/
theorem c2_wrong_operand_behaviour :
    (∀ m : MetricValue, m.subOp .nonMV = .ok none) ∧
    (∀ m : MetricValue, m.addOp .nonMV
      = .error (.runtimeError "Metric values can only be added to other metric values")) ∧
    (∀ m : MetricValue,
      m.gtOp .nonMV = .error (.runtimeError "MetricValue can only be compared to another metric value") ∧
      m.geOp .nonMV = .error (.runtimeError "MetricValue can only be compared to another metric value") ∧
      m.ltOp .nonMV = .error (.runtimeError "MetricValue can only be compared to another metric value") ∧
      m.leOp .nonMV = .error (.runtimeError "MetricValue can only be compared to another metric value") ∧
      m.eqOp .nonMV = .error (.runtimeError "MetricValue can only be compared to another metric value")) ∧
    (∀ d : Duration, d.addOp .nonDur = .ok none ∧ d.subOp .nonDur = .ok none) ∧
    (∀ d : Duration,
      d.gtOp .nonDur = .error (.runtimeError "Duration can only be compared to another duration") ∧
      d.geOp .nonDur = .error (.runtimeError "Duration can only be compared to another duration") ∧
      d.ltOp .nonDur = .error (.runtimeError "Duration can only be compared to another duration") ∧
      d.leOp .nonDur = .error (.runtimeError "Duration can only be compared to another duration") ∧
      d.eqOp .nonDur = .error (.runtimeError "Duration can only be compared to another duration")) ∧
    (∀ (f : Frequency) (x : ℚ), f.eqOp (.num x) = false ∧ f.eqOp .other = false) ∧
    (∀ f : Frequency,
      f.addOp .other = .error (.valueError "Frequency can only be added to another Frequency") ∧
      f.subOp .other = .error (.valueError "Frequency can only be subtracted from another Frequency")) :=
  ⟨fun _ => rfl, fun _ => rfl, fun _ => ⟨rfl, rfl, rfl, rfl, rfl⟩,
    fun _ => ⟨rfl, rfl⟩, fun _ => ⟨rfl, rfl, rfl, rfl, rfl⟩,
    fun _ _ => ⟨rfl, rfl⟩, fun _ => ⟨rfl, rfl⟩⟩

/-- C8 (confirmed): `MetricValue.__ge__` is strictly-greater OR
tolerance-equal, `__le__` is strictly-less OR tolerance-equal, and for
same-unit quantities whose nano-scale difference is inside the
tolerance, both `<=` and `>=` hold simultaneously. -/
theorem c8_ge_le_or_eq :
    (∀ a b : MetricValue, a.phys_unit = b.phys_unit →
      a.geOp (.mv b) = .ok (decide (a.value > b.to_float a.scale) || a.eqv b) ∧
      a.leOp (.mv b) = .ok (decide (a.value < b.to_float a.scale) || a.eqv b)) ∧
    (∀ a b : MetricValue, a.phys_unit = b.phys_unit →
      |a.to_float Scale.NANO - b.to_float Scale.NANO| < 1 / 1000 →
      a.leOp (.mv b) = .ok true ∧ a.geOp (.mv b) = .ok true) := by
  constructor
  · intro a b h
    constructor
    · simp [MetricValue.geOp, h]
    · simp [MetricValue.leOp, h]
  · intro a b h htol
    have he : a.eqv b = true := (MetricValue.eqv_iff a b).mpr htol
    constructor
    · simp [MetricValue.leOp, h, he]
    · simp [MetricValue.geOp, h, he]

/-- C8 witness: two nano-scale quantities `1 nB` and `1.0009 nB` are
within tolerance, and both `<=` and `>=` hold. -/
theorem c8_ge_le_or_eq_witness :
    (⟨1, Scale.NANO, "B"⟩ : MetricValue).phys_unit
        = (⟨10009 / 10000, Scale.NANO, "B"⟩ : MetricValue).phys_unit ∧
    |(⟨1, Scale.NANO, "B"⟩ : MetricValue).to_float Scale.NANO
        - (⟨10009 / 10000, Scale.NANO, "B"⟩ : MetricValue).to_float Scale.NANO| < 1 / 1000 ∧
    MetricValue.leOp ⟨1, Scale.NANO, "B"⟩ (.mv ⟨10009 / 10000, Scale.NANO, "B"⟩) = .ok true ∧
    MetricValue.geOp ⟨1, Scale.NANO, "B"⟩ (.mv ⟨10009 / 10000, Scale.NANO, "B"⟩) = .ok true := by
  have h1 : (⟨1, Scale.NANO, "B"⟩ : MetricValue).phys_unit
      = (⟨10009 / 10000, Scale.NANO, "B"⟩ : MetricValue).phys_unit := rfl
  have h2 : |(⟨1, Scale.NANO, "B"⟩ : MetricValue).to_float Scale.NANO
      - (⟨10009 / 10000, Scale.NANO, "B"⟩ : MetricValue).to_float Scale.NANO| < 1 / 1000 := by
    norm_num [MetricValue.to_float, Scale.value, abs_lt]
  obtain ⟨hle, hge⟩ := c8_ge_le_or_eq.2 _ _ h1 h2
  exact ⟨h1, h2, hle, hge⟩

/-- C9 (confirmed): a `Duration` with strictly negative value fails the
signed band test at every unit in the scan order, so `optimize()`
always takes the nanosecond fallback. -/
theorem c9_negative_duration_optimize (d : Duration) (h : d.value < 0) :
    (∀ u ∈ TimeUnit.scanOrder, d.band u = false) ∧
    d.optimize = d.in_unit TimeUnit.NS := by
  have hband : ∀ u ∈ TimeUnit.scanOrder, d.band u = false :=
    fun u _ => d.band_eq_false_of_neg u h
  refine ⟨hband, ?_⟩
  have hfind : TimeUnit.scanOrder.find? d.band = none := by
    rw [List.find?_eq_none]
    intro u hu
    simp [hband u hu]
  rw [duration_optimize_eq, hfind]

/-- C9 witness: `Duration(-5, s).optimize()` is the nanosecond fallback. -/
theorem c9_negative_duration_optimize_witness :
    ((⟨-5, TimeUnit.S⟩ : Duration).value < 0) ∧
    (∀ u ∈ TimeUnit.scanOrder, (⟨-5, TimeUnit.S⟩ : Duration).band u = false) ∧
    (⟨-5, TimeUnit.S⟩ : Duration).optimize = Duration.in_unit ⟨-5, TimeUnit.S⟩ TimeUnit.NS := by
  have h : ((⟨-5, TimeUnit.S⟩ : Duration).value < 0) := by norm_num
  obtain ⟨h1, h2⟩ := c9_negative_duration_optimize ⟨-5, TimeUnit.S⟩ h
  exact ⟨h, h1, h2⟩

/-- C6 (confirmed): `Duration.__eq__` compares `abs(self - other)`
against the shared `ONE_PICOSECOND` constant (parsed from `"0.001ns"`):
two durations are equal exactly when their absolute difference is
strictly below `0.001 ns`; in particular `1.0 ns == 1.0009 ns` and
`1.0 ns != 1.002 ns`. -/
theorem c6_duration_tolerance :
    Duration.value_of "0.001ns" = .ok ONE_PICOSECOND ∧
    (∀ a b : Duration,
      a.eqB b = true ↔ |a.to_float TimeUnit.NS - b.to_float TimeUnit.NS| < 1 / 1000) ∧
    Duration.eqB ⟨1, TimeUnit.NS⟩ ⟨10009 / 10000, TimeUnit.NS⟩ = true ∧
    Duration.eqB ⟨1, TimeUnit.NS⟩ ⟨501 / 500, TimeUnit.NS⟩ = false := by
  refine ⟨?_, Duration.eqB_iff, ?_, ?_⟩
  · have hp : Duration.parseCore "0.001ns".data = some (⟨false, 0, 1, 3, 0⟩, TimeUnit.NS) := by
      decide
    unfold Duration.value_of
    rw [hp]
    dsimp only
    have hval : NumParts.val ⟨false, 0, 1, 3, 0⟩ = 1 / 1000 := by
      norm_num [NumParts.val]
    rw [show ONE_PICOSECOND = (⟨1 / 1000, TimeUnit.NS⟩ : Duration) from rfl, hval]
  · exact (Duration.eqB_iff _ _).mpr (by norm_num [Duration.to_float, TimeUnit.value, abs_lt])
  · have hne : ¬ (Duration.eqB ⟨1, TimeUnit.NS⟩ ⟨501 / 500, TimeUnit.NS⟩ = true) := by
      intro hc
      have := (Duration.eqB_iff _ _).mp hc
      rw [abs_lt] at this
      norm_num [Duration.to_float, TimeUnit.value] at this
    exact Bool.eq_false_iff.mpr hne

/-- C7 (confirmed): dividing a plain number by a `Frequency` yields
`Duration(1 / as_float(), matching_time_unit(unit))` with the fixed
mapping GHz to ns, MHz to us, KHz to ms, Hz to s; in particular
`1 / Frequency.value_of("2GHz")` equals `Duration.value_of("0.5ns")`. -/
theorem c7_reciprocal :
    (∀ (n : ℚ) (f : Frequency), f.freq ≠ 0 →
      Frequency.rtruedivOp (.num n) f = .ok ⟨1 / f.freq, f.unit.matching_time_unit⟩) ∧
    Frequency.value_of (.str "2GHz") = .ok ⟨2, FrequencyUnit.GHz⟩ ∧
    Frequency.rtruedivOp (.num 1) ⟨2, FrequencyUnit.GHz⟩ = .ok ⟨1 / 2, TimeUnit.NS⟩ ∧
    Duration.value_of "0.5ns" = .ok ⟨1 / 2, TimeUnit.NS⟩ ∧
    Duration.eqB ⟨1 / 2, TimeUnit.NS⟩ ⟨1 / 2, TimeUnit.NS⟩ = true := by
  refine ⟨fun n f _ => rfl, ?_, rfl, ?_, Duration.eqB_self _⟩
  · have hb : endsWithL (pyLower (pyStrip "2GHz".data)) ['g', 'h', 'z'] = true := by decide
    have hr : pyFloatParse (replaceAll (pyLower (pyStrip "2GHz".data)) ['g', 'h', 'z'])
        = some ⟨false, 2, 0, 0, 0⟩ := by decide
    simp only [Frequency.value_of, hb, if_true, pyFloat, hr]
    have hval : NumParts.val ⟨false, 2, 0, 0, 0⟩ = 2 := by norm_num [NumParts.val]
    simp [Except.map, hval]
  · have hp : Duration.parseCore "0.5ns".data = some (⟨false, 0, 5, 1, 0⟩, TimeUnit.NS) := by
      decide
    unfold Duration.value_of
    rw [hp]
    dsimp only
    have hval : NumParts.val ⟨false, 0, 5, 1, 0⟩ = 1 / 2 := by norm_num [NumParts.val]
    rw [hval]

/-- C7 witness: `3 / Frequency(2, GHz)` is `Duration(0.5, ns)` — the
numerator is ignored by the source, and the hypothesis `freq != 0`
holds at `2`. -/
theorem c7_reciprocal_witness :
    ((⟨2, FrequencyUnit.GHz⟩ : Frequency).freq ≠ 0) ∧
    Frequency.rtruedivOp (.num 3) ⟨2, FrequencyUnit.GHz⟩ = .ok ⟨1 / 2, TimeUnit.NS⟩ :=
  ⟨by norm_num, c7_reciprocal.1 3 ⟨2, FrequencyUnit.GHz⟩ (by norm_num)⟩

/-- C10 (confirmed): any casing of `thz` drives `FrequencyUnit.value_of`
into the reference to the nonexistent enum member `THz`, an
`AttributeError` — not a `FrequencyUnit`, not the declared unknown-unit
`ValueError`; `Frequency.as_float` and `Frequency.in_unit` with such a
unit string fail the same way. -/
theorem c10_thz_attribute_error (s : String) (f : Frequency)
    (h : pyLower (pyStrip s.data) = ['t', 'h', 'z']) :
    FrequencyUnit.value_of (.str s)
        = .error (.attributeError "type object FrequencyUnit has no attribute THz") ∧
    f.as_float (some (.str s))
        = .error (.attributeError "type object FrequencyUnit has no attribute THz") ∧
    f.in_unit (.str s)
        = .error (.attributeError "type object FrequencyUnit has no attribute THz") := by
  have hv : FrequencyUnit.value_of (.str s)
      = .error (.attributeError "type object FrequencyUnit has no attribute THz") := by
    simp only [FrequencyUnit.value_of, h]
    rfl
  have ha : f.as_float (some (.str s))
      = .error (.attributeError "type object FrequencyUnit has no attribute THz") := by
    simp only [Frequency.as_float, hv]
  refine ⟨hv, ha, ?_⟩
  simp only [Frequency.in_unit, ha]

/-- C10 witness: the unit string `"THz"` and `Frequency(1, Hz)`. -/
theorem c10_thz_attribute_error_witness :
    pyLower (pyStrip "THz".data) = ['t', 'h', 'z'] ∧
    FrequencyUnit.value_of (.str "THz")
        = .error (.attributeError "type object FrequencyUnit has no attribute THz") ∧
    (⟨1, FrequencyUnit.Hz⟩ : Frequency).as_float (some (.str "THz"))
        = .error (.attributeError "type object FrequencyUnit has no attribute THz") ∧
    (⟨1, FrequencyUnit.Hz⟩ : Frequency).in_unit (.str "THz")
        = .error (.attributeError "type object FrequencyUnit has no attribute THz") := by
  have h : pyLower (pyStrip "THz".data) = ['t', 'h', 'z'] := by decide
  obtain ⟨h1, h2, h3⟩ := c10_thz_attribute_error "THz" ⟨1, FrequencyUnit.Hz⟩ h
  exact ⟨h, h1, h2, h3⟩

/-! ## Parser lemmas: a complete literal followed by safe text -/

theorem takeWhile_append_stop {α : Type} (p : α → Bool) (l tail : List α)
    (h : l.dropWhile p = [] → ∀ c t, tail = c :: t → p c = false) :
    (l ++ tail).takeWhile p = l.takeWhile p ∧
    (l ++ tail).dropWhile p = l.dropWhile p ++ tail := by
  induction l with
  | nil =>
    cases tail with
    | nil => simp
    | cons c t =>
      have hc := h rfl c t rfl
      constructor
      · rw [List.nil_append, List.takeWhile_nil, List.takeWhile_cons_of_neg (by simp [hc])]
      · rw [List.nil_append, List.dropWhile_nil, List.dropWhile_cons_of_neg (by simp [hc]),
          List.nil_append]
  | cons x l ih =>
    cases hx : p x with
    | true =>
      have hcond : l.dropWhile p = [] → ∀ c t, tail = c :: t → p c = false := by
        intro hd
        exact h (by rw [List.dropWhile_cons_of_pos hx]; exact hd)
      obtain ⟨h1, h2⟩ := ih hcond
      constructor
      · rw [List.cons_append, List.takeWhile_cons_of_pos hx, List.takeWhile_cons_of_pos hx, h1]
      · rw [List.cons_append, List.dropWhile_cons_of_pos hx, List.dropWhile_cons_of_pos hx, h2]
    | false =>
      constructor
      · rw [List.cons_append, List.takeWhile_cons_of_neg (by simp [hx]),
          List.takeWhile_cons_of_neg (by simp [hx])]
      · rw [List.cons_append, List.dropWhile_cons_of_neg (by simp [hx]),
          List.dropWhile_cons_of_neg (by simp [hx]), List.cons_append]

theorem SafeTail.digit_stop {tail : List Char} (hs : SafeTail tail) :
    ∀ c t, tail = c :: t → isDigitChar c = false :=
  fun c t h => (hs c t h).1

theorem parseSign_append (c : Char) (t tail : List Char) :
    parseSign ((c :: t) ++ tail) = ((parseSign (c :: t)).1, (parseSign (c :: t)).2 ++ tail) := by
  by_cases hc : c = '-'
  · subst hc; rfl
  · rw [List.cons_append]
    unfold parseSign
    split
    · next t2 heq =>
      obtain ⟨h1, -⟩ := List.cons.inj heq
      exact absurd h1 hc
    · split
      · next t2 heq =>
        obtain ⟨h1, -⟩ := List.cons.inj heq
        exact absurd h1 hc
      · rfl

theorem parseFracPart_not_dot (c : Char) (t : List Char) (hc : c ≠ '.') :
    parseFracPart (c :: t) = (0, 0, c :: t) := by
  unfold parseFracPart
  split
  · next t2 heq =>
    obtain ⟨h1, -⟩ := List.cons.inj heq
    exact absurd h1 hc
  · rfl

theorem parseFracPart_append (cs tail : List Char) (hs : SafeTail tail) :
    parseFracPart (cs ++ tail)
      = ((parseFracPart cs).1, (parseFracPart cs).2.1, (parseFracPart cs).2.2 ++ tail) := by
  cases cs with
  | nil =>
    rw [List.nil_append]
    cases tail with
    | nil => rfl
    | cons c t =>
      rw [parseFracPart_not_dot c t (hs c t rfl).2.1]
      rfl
  | cons c t =>
    by_cases hc : c = '.'
    · subst hc
      rw [List.cons_append]
      simp only [parseFracPart]
      obtain ⟨h1, h2⟩ := takeWhile_append_stop isDigitChar t tail (fun _ => hs.digit_stop)
      rw [h1, h2]
      by_cases hfd : (t.takeWhile isDigitChar).isEmpty
      · simp [hfd]
      · simp [hfd]
    · rw [List.cons_append, parseFracPart_not_dot c _ hc, parseFracPart_not_dot c t hc]
      rfl

theorem signSplit_cons_other (c : Char) (t : List Char) (h1 : c ≠ '+') (h2 : c ≠ '-') :
    signSplit (c :: t) = (false, c :: t) := by
  unfold signSplit
  split
  · next t2 heq =>
    obtain ⟨hh, -⟩ := List.cons.inj heq
    exact absurd hh h1
  · next t2 heq =>
    obtain ⟨hh, -⟩ := List.cons.inj heq
    exact absurd hh h2
  · rfl

theorem signSplit_append (c : Char) (t tail : List Char) :
    signSplit ((c :: t) ++ tail) = ((signSplit (c :: t)).1, (signSplit (c :: t)).2 ++ tail) := by
  by_cases h1 : c = '+'
  · subst h1; rfl
  · by_cases h2 : c = '-'
    · subst h2; rfl
    · rw [List.cons_append, signSplit_cons_other c _ h1 h2, signSplit_cons_other c t h1 h2]
      rfl

theorem parseExpPart_append (cs tail : List Char) (hs : SafeTail tail)
    (h : (parseExpPart cs).2 = []) :
    parseExpPart (cs ++ tail) = ((parseExpPart cs).1, tail) := by
  cases cs with
  | nil =>
    rw [List.nil_append]
    cases tail with
    | nil => rfl
    | cons c t =>
      have hc := hs c t rfl
      simp only [parseExpPart]
      rw [if_neg (by simp [hc.2.2.1, hc.2.2.2])]
  | cons c t =>
    simp only [parseExpPart] at h
    by_cases hce : c = 'e' ∨ c = 'E'
    · rw [if_pos hce] at h
      rw [List.cons_append]
      simp only [parseExpPart]
      rw [if_pos hce]
      cases t with
      | nil =>
        exfalso
        simp [signSplit] at h
      | cons d t2 =>
        rw [signSplit_append d t2 tail]
        obtain ⟨h1, h2⟩ := takeWhile_append_stop isDigitChar (signSplit (d :: t2)).2 tail
          (fun _ => hs.digit_stop)
        rw [h1, h2]
        by_cases hed : ((signSplit (d :: t2)).2.takeWhile isDigitChar).isEmpty
        · rw [if_pos hed] at h
          simp at h
        · rw [if_neg hed] at h ⊢
          simp only at h
          rw [h]
          simp [hce, hed]
    · rw [if_neg hce] at h
      simp at h

theorem parseNumeral_append (ns tail : List Char) (p : NumParts)
    (h : parseNumeral ns = some (p, []))
    (hs : SafeTail tail) :
    parseNumeral (ns ++ tail) = some (p, tail) := by
  cases ns with
  | nil =>
    exfalso
    simp [parseNumeral, parseSign] at h
  | cons c t =>
    simp only [parseNumeral] at h ⊢
    rw [parseSign_append]
    obtain ⟨h1, h2⟩ := takeWhile_append_stop isDigitChar (parseSign (c :: t)).2 tail
      (fun _ => hs.digit_stop)
    rw [h1, h2]
    by_cases hip : ((parseSign (c :: t)).2.takeWhile isDigitChar).isEmpty
    · rw [if_pos hip] at h
      exact absurd h (by simp)
    · rw [if_neg hip] at h ⊢
      rw [parseFracPart_append _ tail hs]
      have hinj := Option.some.inj h
      have hrest : (parseExpPart
          (parseFracPart ((parseSign (c :: t)).2.dropWhile isDigitChar)).2.2).2 = [] :=
        congrArg Prod.snd hinj
      have hp : (⟨(parseSign (c :: t)).1,
          digitsVal ((parseSign (c :: t)).2.takeWhile isDigitChar),
          (parseFracPart ((parseSign (c :: t)).2.dropWhile isDigitChar)).1,
          (parseFracPart ((parseSign (c :: t)).2.dropWhile isDigitChar)).2.1,
          (parseExpPart
            (parseFracPart ((parseSign (c :: t)).2.dropWhile isDigitChar)).2.2).1⟩ : NumParts)
          = p :=
        congrArg Prod.fst hinj
      rw [parseExpPart_append _ tail hs hrest, hp]

theorem digit_not_ws (c : Char) (h : isDigitChar c = true) : isPyWs c = false := by
  have hm : c ∈ ['0', '1', '2', '3', '4', '5', '6', '7', '8', '9'] := of_decide_eq_true h
  fin_cases hm <;> decide

theorem parseSign_cons_other (c : Char) (t : List Char) (hc : c ≠ '-') :
    parseSign (c :: t) = (false, c :: t) := by
  unfold parseSign
  split
  · next t2 heq =>
    obtain ⟨h1, -⟩ := List.cons.inj heq
    exact absurd h1 hc
  · rfl

theorem parseNumeral_head_not_ws (ns : List Char) (p : NumParts) (r : List Char)
    (h : parseNumeral ns = some (p, r)) :
    ns.dropWhile isPyWs = ns := by
  cases ns with
  | nil => rfl
  | cons c t =>
    rw [List.dropWhile_cons_of_neg]
    simp only [parseNumeral] at h
    by_cases hc : c = '-'
    · subst hc
      decide
    · rw [parseSign_cons_other c t hc] at h
      cases hd : isDigitChar c with
      | false =>
        rw [List.takeWhile_cons_of_neg (by simp [hd])] at h
        simp at h
      | true =>
        simp [digit_not_ws c hd]

theorem searchNumSplit_eq {α : Type} (rp : List Char → Option α) (cs : List Char)
    (k : ℕ) (r : NumParts × α) :
    ∀ n : ℕ, k ≤ n →
    (∀ m, k < m → m ≤ n → tryNumSplit rp cs m = none) →
    tryNumSplit rp cs k = some r →
    searchNumSplit rp cs n = some r := by
  intro n
  induction n with
  | zero =>
    intro hkn hfail hsucc
    have hk0 : k = 0 := by omega
    subst hk0
    exact absurd hsucc (by simp [tryNumSplit, parseNumeral, parseSign])
  | succ n ih =>
    intro hkn hfail hsucc
    by_cases hk : k = n + 1
    · subst hk
      unfold searchNumSplit
      rw [hsucc]
    · have hfail' : ∀ m, k < m → m ≤ n → tryNumSplit rp cs m = none :=
        fun m hm1 hm2 => hfail m hm1 (by omega)
      unfold searchNumSplit
      rw [hfail (n + 1) (by omega) (le_refl _)]
      exact ih (by omega) hfail' hsucc

theorem tryNumSplit_none_of_rest {α : Type} (rp : List Char → Option α) (cs : List Char)
    (m : ℕ) (p : NumParts) (rest : List Char)
    (hpn : parseNumeral (cs.take m) = some (p, rest)) (hne : rest ≠ []) :
    tryNumSplit rp cs m = none := by
  unfold tryNumSplit
  rw [hpn]
  cases rest with
  | nil => exact absurd rfl hne
  | cons a b => rfl

theorem tryNumSplit_at_split {α : Type} (rp : List Char → Option α) (ns tail : List Char)
    (p : NumParts) (a : α)
    (hn : parseNumeral ns = some (p, []))
    (hr : rp tail = some a) :
    tryNumSplit rp (ns ++ tail) ns.length = some (p, a) := by
  unfold tryNumSplit
  rw [List.take_left, hn, List.drop_left, hr]

theorem tryNumSplit_none_above {α : Type} (rp : List Char → Option α) (ns tail : List Char)
    (p : NumParts) (m : ℕ)
    (hn : parseNumeral ns = some (p, []))
    (hs : SafeTail tail)
    (hm : ns.length < m) (hm2 : m ≤ (ns ++ tail).length) :
    tryNumSplit rp (ns ++ tail) m = none := by
  have htail_ne : tail ≠ [] := by
    intro hnil
    subst hnil
    simp at hm2
    omega
  have hkpos : m - ns.length ≠ 0 := by omega
  have htk : (ns ++ tail).take m = ns ++ tail.take (m - ns.length) := by
    have : m = ns.length + (m - ns.length) := by omega
    rw [this, List.take_append, Nat.add_sub_cancel_left]
  have hst : SafeTail (tail.take (m - ns.length)) := by
    intro c t hct
    cases tail with
    | nil => exact absurd rfl htail_ne
    | cons c0 t0 =>
      obtain ⟨k, hk⟩ : ∃ k, m - ns.length = k + 1 := ⟨m - ns.length - 1, by omega⟩
      rw [hk, List.take_succ_cons] at hct
      obtain ⟨hc0, -⟩ := List.cons.inj hct
      exact hc0 ▸ hs c0 t0 rfl
  have hres := parseNumeral_append ns (tail.take (m - ns.length)) p hn hst
  refine tryNumSplit_none_of_rest rp _ m p (tail.take (m - ns.length)) (by rw [htk]; exact hres) ?_
  intro hnil
  rw [List.take_eq_nil_iff] at hnil
  rcases hnil with hx | hx
  · exact hkpos hx
  · exact htail_ne hx

theorem dropWhile_length_le {α : Type} (p : α → Bool) (t : List α) :
    (t.dropWhile p).length ≤ t.length := by
  induction t with
  | nil => simp
  | cons x l ih =>
    rw [List.dropWhile_cons]
    split
    · exact le_trans ih (by simp)
    · simp

theorem dropWhile_cons_self {α : Type} {p : α → Bool} {c : α} {t : List α}
    (h : (c :: t).dropWhile p = c :: t) : p c = false := by
  cases hc : p c with
  | false => rfl
  | true =>
    rw [List.dropWhile_cons_of_pos hc] at h
    have hlen := congrArg List.length h
    have hle := dropWhile_length_le p t
    simp at hlen
    omega

theorem duration_parseCore_split (ns tail : List Char) (p : NumParts) (u : TimeUnit)
    (hn : parseNumeral ns = some (p, []))
    (hs : SafeTail tail)
    (hr : durRestParse tail = some u) :
    Duration.parseCore (ns ++ tail) = some (p, u) := by
  unfold Duration.parseCore
  have hdw : (ns ++ tail).dropWhile isPyWs = ns ++ tail := by
    cases ns with
    | nil => exact absurd hn (by simp [parseNumeral, parseSign])
    | cons c t =>
      have hc := dropWhile_cons_self (parseNumeral_head_not_ws (c :: t) p [] hn)
      rw [List.cons_append, List.dropWhile_cons_of_neg (by simp [hc])]
  rw [hdw]
  exact searchNumSplit_eq durRestParse (ns ++ tail) ns.length (p, u) (ns ++ tail).length
    (by simp)
    (fun m hm1 hm2 => tryNumSplit_none_above durRestParse ns tail p m hn hs hm1 hm2)
    (tryNumSplit_at_split durRestParse ns tail p u hn hr)

theorem duration_value_of_split (ns tok : List Char) (p : NumParts) (u : TimeUnit)
    (hn : parseNumeral ns = some (p, []))
    (hs : SafeTail tok)
    (hr : durRestParse tok = some u) :
    Duration.value_of (String.mk (ns ++ tok)) = .ok ⟨p.val, u⟩ := by
  unfold Duration.value_of
  rw [show (String.mk (ns ++ tok)).data = ns ++ tok from rfl,
    duration_parseCore_split ns tok p u hn hs hr]

/-- C4 counterexample: the mixed-case unit tokens `"Ms"` and `"nS"` are
rejected by the duration matcher — it lists only all-lowercase and
all-uppercase alternatives — while the claim says every casing parses. -/
theorem c4_counterexample :
    Duration.value_of "1Ms" = .error (.runtimeError "Unable to parse \"1Ms\" as duration") ∧
    Duration.value_of "1nS" = .error (.runtimeError "Unable to parse \"1nS\" as duration") := by
  constructor
  · have hp : Duration.parseCore "1Ms".data = none := by decide
    unfold Duration.value_of
    rw [hp]
    rfl
  · have hp : Duration.parseCore "1nS".data = none := by decide
    unfold Duration.value_of
    rw [hp]
    rfl

/-- C4 (corrected): the duration matcher accepts the unit token only in
all-lowercase or all-uppercase form (the regex alternatives are
`ks|s|ms|us|ns|KS|S|MS|US|NS`, with no IGNORECASE flag): every
shared-grammar literal followed by one of those ten tokens parses to the
corresponding `TimeUnit`, while mixed casings such as `"Ms"` and `"nS"`
raise the ParseError-kind `RuntimeError`. -/
theorem c4_duration_unit_casing :
    (∀ (ns : List Char) (p : NumParts) (tok : List Char) (u : TimeUnit),
      parseNumeral ns = some (p, []) →
      (tok, u) ∈ [(['k', 's'], TimeUnit.KS), (['s'], TimeUnit.S), (['m', 's'], TimeUnit.MS),
        (['u', 's'], TimeUnit.US), (['n', 's'], TimeUnit.NS),
        (['K', 'S'], TimeUnit.KS), (['S'], TimeUnit.S), (['M', 'S'], TimeUnit.MS),
        (['U', 'S'], TimeUnit.US), (['N', 'S'], TimeUnit.NS)] →
      Duration.value_of (String.mk (ns ++ tok)) = .ok ⟨p.val, u⟩) ∧
    Duration.value_of "1Ms" = .error (.runtimeError "Unable to parse \"1Ms\" as duration") ∧
    Duration.value_of "1MS" = .ok ⟨1, TimeUnit.MS⟩ ∧
    Duration.value_of "1ms" = .ok ⟨1, TimeUnit.MS⟩ := by
  refine ⟨?_, ?_, ?_, ?_⟩
  · intro ns p tok u hn htok
    fin_cases htok <;>
      refine duration_value_of_split ns _ p _ hn ?_ (by decide) <;>
      · intro c t hct
        obtain ⟨h1, h2⟩ := List.cons.inj hct
        subst h1
        subst h2
        decide
  · have hp : Duration.parseCore "1Ms".data = none := by decide
    unfold Duration.value_of
    rw [hp]
    rfl
  · have hp : Duration.parseCore "1MS".data = some (⟨false, 1, 0, 0, 0⟩, TimeUnit.MS) := by
      decide
    unfold Duration.value_of
    rw [hp]
    dsimp only
    rw [show NumParts.val ⟨false, 1, 0, 0, 0⟩ = 1 by norm_num [NumParts.val]]
  · have hp : Duration.parseCore "1ms".data = some (⟨false, 1, 0, 0, 0⟩, TimeUnit.MS) := by
      decide
    unfold Duration.value_of
    rw [hp]
    dsimp only
    rw [show NumParts.val ⟨false, 1, 0, 0, 0⟩ = 1 by norm_num [NumParts.val]]

/-- C4 witness: the literal `"2"` followed by the lowercase token `"ms"`
parses to two milliseconds. -/
theorem c4_duration_unit_casing_witness :
    parseNumeral ['2'] = some (⟨false, 2, 0, 0, 0⟩, []) ∧
    Duration.value_of (String.mk (['2'] ++ ['m', 's']))
      = .ok ⟨NumParts.val ⟨false, 2, 0, 0, 0⟩, TimeUnit.MS⟩ :=
  ⟨by decide, c4_duration_unit_casing.1 ['2'] ⟨false, 2, 0, 0, 0⟩ ['m', 's'] TimeUnit.MS
    (by decide) (by decide)⟩

theorem dropWhile_of_all_false {α : Type} (p : α → Bool) (l : List α)
    (h : ∀ c ∈ l, p c = false) : l.dropWhile p = l := by
  cases l with
  | nil => rfl
  | cons c t => exact List.dropWhile_cons_of_neg (by simp [h c (List.mem_cons_self c t)])

theorem rtrimWs_no_ws (l : List Char) (h : ∀ c ∈ l, isPyWs c = false) :
    rtrimWs l = l := by
  unfold rtrimWs
  rw [dropWhile_of_all_false isPyWs l.reverse (fun c hc => h c (List.mem_reverse.mp hc)),
    List.reverse_reverse]

theorem SafeTail_cons (c : Char) (X : List Char) (h1 : isDigitChar c = false)
    (h2 : c ≠ '.') (h3 : c ≠ 'e') (h4 : c ≠ 'E') : SafeTail (c :: X) := by
  intro c' t' hct
  obtain ⟨hc, -⟩ := List.cons.inj hct
  exact hc ▸ ⟨h1, h2, h3, h4⟩

theorem mvRestParse_code (ch : Char) (sc : Scale) (pu : List Char)
    (hchws : isPyWs ch = false) (hof : Scale.ofChar ch = .ok sc)
    (hne : pu ≠ []) (hws : ∀ c ∈ pu, isPyWs c = false) :
    mvRestParse (' ' :: ch :: pu) = some (sc, pu) := by
  have hall : ∀ c ∈ ch :: pu, isPyWs c = false := by
    intro c hc
    rcases List.mem_cons.mp hc with rfl | hmem
    · exact hchws
    · exact hws c hmem
  have hany : (ch :: pu).any isPyWs = false :=
    List.any_eq_false.mpr (fun x hx => by simp [hall x hx])
  have hpuE : pu.isEmpty = false := by
    cases pu with
    | nil => exact absurd rfl hne
    | cons a b => rfl
  simp only [mvRestParse]
  rw [List.dropWhile_cons_of_pos (by decide), dropWhile_of_all_false isPyWs _ hall,
    rtrimWs_no_ws _ hall]
  rw [if_neg (by simp [hany])]
  dsimp only
  rw [hof]
  simp only [hpuE]
  rfl

theorem mvRestParse_unit (pu : List Char)
    (hne : pu ≠ []) (hws : ∀ c ∈ pu, isPyWs c = false)
    (hhead : ∀ c t, pu = c :: t → c ∉ (['n', 'u', 'm', 'K', 'M', 'G'] : List Char)) :
    mvRestParse (' ' :: pu) = some (Scale.UNIT, pu) := by
  cases pu with
  | nil => exact absurd rfl hne
  | cons c t =>
    have hc := hhead c t rfl
    have h1 : c ≠ 'n' := fun h => hc (by simp [h])
    have h2 : c ≠ 'u' := fun h => hc (by simp [h])
    have h3 : c ≠ 'm' := fun h => hc (by simp [h])
    have h4 : c ≠ 'K' := fun h => hc (by simp [h])
    have h5 : c ≠ 'M' := fun h => hc (by simp [h])
    have h6 : c ≠ 'G' := fun h => hc (by simp [h])
    have hofe : Scale.ofChar c = .error (.runtimeError "Unknown scale") := by
      simp [Scale.ofChar, h1, h2, h3, h4, h5, h6]
    have hany : (c :: t).any isPyWs = false :=
      List.any_eq_false.mpr (fun x hx => by simp [hws x hx])
    simp only [mvRestParse]
    rw [List.dropWhile_cons_of_pos (by decide), dropWhile_of_all_false isPyWs _ hws,
      rtrimWs_no_ws _ hws]
    rw [if_neg (by simp [hany])]
    dsimp only
    rw [hofe]

theorem mv_parseCore_split (ns tail : List Char) (p : NumParts) (sc : Scale)
    (pu : List Char)
    (hn : parseNumeral ns = some (p, []))
    (hs : SafeTail tail)
    (hr : mvRestParse tail = some (sc, pu)) :
    MetricValue.parseCore (ns ++ tail) = some (p, sc, pu) := by
  unfold MetricValue.parseCore
  have hdw : (ns ++ tail).dropWhile isPyWs = ns ++ tail := by
    cases ns with
    | nil => exact absurd hn (by simp [parseNumeral, parseSign])
    | cons c t =>
      have hc := dropWhile_cons_self (parseNumeral_head_not_ws (c :: t) p [] hn)
      rw [List.cons_append, List.dropWhile_cons_of_neg (by simp [hc])]
  rw [hdw]
  exact searchNumSplit_eq mvRestParse (ns ++ tail) ns.length (p, sc, pu) (ns ++ tail).length
    (by simp)
    (fun m hm1 hm2 => tryNumSplit_none_above mvRestParse ns tail p m hn hs hm1 hm2)
    (tryNumSplit_at_split mvRestParse ns tail p (sc, pu) hn hr)

theorem durRestParse_space_tok (u : TimeUnit) :
    durRestParse (' ' :: (u.to_str).data) = some u := by
  cases u <;> decide

theorem scale_tostr_safe (sc : Scale) (pu : List Char) :
    SafeTail (' ' :: ((sc.to_str).data ++ pu)) :=
  SafeTail_cons ' ' _ (by decide) (by decide) (by decide) (by decide)

theorem string_ne_empty_data {s : String} (h : s ≠ "") : s.data ≠ [] := by
  intro hd
  apply h
  cases s with
  | mk l => exact congrArg String.mk hd

theorem mv_band_false_of_ge (m : MetricValue) (sc : Scale) (h : ¬ |m.to_float sc| < 1000) :
    ¬ (m.band sc = true) := by
  simp only [MetricValue.band, Bool.and_eq_true, decide_eq_true_eq]
  intro hcon
  exact h hcon.1

theorem mv_band_false_of_lt (m : MetricValue) (sc : Scale) (h : ¬ 1 ≤ |m.to_float sc|) :
    ¬ (m.band sc = true) := by
  simp only [MetricValue.band, Bool.and_eq_true, decide_eq_true_eq]
  intro hcon
  exact h hcon.2

theorem mv_band_true (m : MetricValue) (sc : Scale) (h1 : |m.to_float sc| < 1000)
    (h2 : 1 ≤ |m.to_float sc|) : m.band sc = true := by
  simp [MetricValue.band, h1, h2]

theorem duration_roundtrip (nr : ℚ → String) (v : Duration) (p : NumParts)
    (hn : parseNumeral (nr v.value).data = some (p, []))
    (hv : p.val = v.value) :
    Duration.value_of (Duration.str nr v) = .ok v := by
  have hdata : (Duration.str nr v).data
      = (nr v.value).data ++ (' ' :: (v.time_unit.to_str).data) := by
    simp only [Duration.str, String.data_append]
    rw [List.append_assoc]
    rfl
  unfold Duration.value_of
  rw [hdata, duration_parseCore_split _ _ p v.time_unit hn
    (SafeTail_cons ' ' _ (by decide) (by decide) (by decide) (by decide))
    (durRestParse_space_tok v.time_unit)]
  dsimp only
  rw [hv]

theorem metric_roundtrip (nr : ℚ → String) (v : MetricValue) (p : NumParts)
    (hn : parseNumeral (nr v.value).data = some (p, []))
    (hv : p.val = v.value)
    (hne : v.phys_unit ≠ "")
    (hws : ∀ c ∈ v.phys_unit.data, isPyWs c = false)
    (hhead : v.scale = Scale.UNIT →
      ∀ c t, v.phys_unit.data = c :: t → c ∉ (['n', 'u', 'm', 'K', 'M', 'G'] : List Char)) :
    MetricValue.value_of (MetricValue.str nr v) = .ok v := by
  have hpune := string_ne_empty_data hne
  have hrest : mvRestParse (' ' :: ((v.scale.to_str).data ++ v.phys_unit.data))
      = some (v.scale, v.phys_unit.data) := by
    cases hsc : v.scale with
    | UNIT =>
      rw [show ((Scale.UNIT.to_str).data : List Char) = [] from rfl, List.nil_append]
      exact mvRestParse_unit _ hpune hws (hhead hsc)
    | NANO => exact mvRestParse_code 'n' _ _ (by decide) rfl hpune hws
    | MICRO => exact mvRestParse_code 'u' _ _ (by decide) rfl hpune hws
    | MILLI => exact mvRestParse_code 'm' _ _ (by decide) rfl hpune hws
    | KILO => exact mvRestParse_code 'K' _ _ (by decide) rfl hpune hws
    | MEGA => exact mvRestParse_code 'M' _ _ (by decide) rfl hpune hws
    | GIGA => exact mvRestParse_code 'G' _ _ (by decide) rfl hpune hws
  have hdata : (MetricValue.str nr v).data
      = (nr v.value).data ++ (' ' :: ((v.scale.to_str).data ++ v.phys_unit.data)) := by
    simp only [MetricValue.str, String.data_append]
    rw [List.append_assoc, List.append_assoc]
    rfl
  unfold MetricValue.value_of
  rw [hdata, mv_parseCore_split _ _ p v.scale v.phys_unit.data hn
    (scale_tostr_safe v.scale v.phys_unit.data) hrest]
  dsimp only
  rw [hv]

/-- C3 counterexample: `MetricValue(5.0, unit, "mm")` is its own
`optimize()`, renders as `"5.0 mm"`, but parsing that text yields
`MetricValue(5.0, milli, "m")` — the regex captures the leading `m` of
the unit as a scale code — and comparing the two raises the
unit-mismatch `RuntimeError`, so `parse(render(v)) == v` fails. -/
theorem c3_counterexample :
    MetricValue.optimize ⟨5, Scale.UNIT, "mm"⟩ = ⟨5, Scale.UNIT, "mm"⟩ ∧
    MetricValue.str (fun _ => "5.0") ⟨5, Scale.UNIT, "mm"⟩ = "5.0 mm" ∧
    MetricValue.value_of "5.0 mm" = .ok ⟨5, Scale.MILLI, "m"⟩ ∧
    MetricValue.eqOp ⟨5, Scale.MILLI, "m"⟩ (.mv ⟨5, Scale.UNIT, "mm"⟩)
      = .error (.runtimeError "Values can be compared only if they share the same physical unit") := by
  refine ⟨?_, rfl, ?_, rfl⟩
  · rw [mv_optimize_eq, Scale.ladder,
      List.find?_cons_of_neg _ (mv_band_false_of_ge _ _
        (by norm_num [MetricValue.to_float, Scale.value, not_lt, le_abs])),
      List.find?_cons_of_neg _ (mv_band_false_of_ge _ _
        (by norm_num [MetricValue.to_float, Scale.value, not_lt, le_abs])),
      List.find?_cons_of_neg _ (mv_band_false_of_ge _ _
        (by norm_num [MetricValue.to_float, Scale.value, not_lt, le_abs])),
      List.find?_cons_of_pos _ (mv_band_true _ _
        (by norm_num [MetricValue.to_float, Scale.value, abs_lt])
        (by norm_num [MetricValue.to_float, Scale.value, le_abs]))]
    norm_num [MetricValue.in_unit, Scale.value]
  · have hp : MetricValue.parseCore "5.0 mm".data
        = some (⟨false, 5, 0, 1, 0⟩, Scale.MILLI, ['m']) := by decide
    unfold MetricValue.value_of
    rw [hp]
    dsimp only
    rw [show NumParts.val ⟨false, 5, 0, 1, 0⟩ = 5 by norm_num [NumParts.val]]

/-- C3 (corrected): the parse/render round trip holds for every
`Duration` produced by `optimize()` (given a value renderer whose output
is a shared-grammar literal reading back to the same rational, as
Python's float `str` is in the exact model), and for every
`MetricQuantity` produced by `optimize()` whose `phys_unit` is
non-empty, whitespace-free and — when the optimized scale is `unit` —
does not start with one of the scale-code characters `n,u,m,K,M,G`.
When the optimized scale is `unit` and the unit text starts with a
scale code the re-parse misreads it (see the counterexample).
`Frequency` has no `optimize()` in the source, so the claim's frequency
case has no instances. -/
theorem c3_roundtrip :
    (∀ (nr : ℚ → String) (d : Duration) (p : NumParts),
      parseNumeral (nr d.optimize.value).data = some (p, []) →
      p.val = d.optimize.value →
      Duration.value_of (Duration.str nr d.optimize) = .ok d.optimize ∧
      Duration.eqB d.optimize d.optimize = true) ∧
    (∀ (nr : ℚ → String) (m : MetricValue) (p : NumParts),
      parseNumeral (nr m.optimize.value).data = some (p, []) →
      p.val = m.optimize.value →
      m.optimize.phys_unit ≠ "" →
      (∀ c ∈ m.optimize.phys_unit.data, isPyWs c = false) →
      (m.optimize.scale = Scale.UNIT →
        ∀ c t, m.optimize.phys_unit.data = c :: t →
          c ∉ (['n', 'u', 'm', 'K', 'M', 'G'] : List Char)) →
      MetricValue.value_of (MetricValue.str nr m.optimize) = .ok m.optimize ∧
      MetricValue.eqv m.optimize m.optimize = true) := by
  constructor
  · intro nr d p hn hv
    exact ⟨duration_roundtrip nr d.optimize p hn hv, Duration.eqB_self _⟩
  · intro nr m p hn hv hne hws hhead
    exact ⟨metric_roundtrip nr m.optimize p hn hv hne hws hhead, MetricValue.eqv_self _⟩

theorem duration_zero_optimize :
    (⟨0, TimeUnit.NS⟩ : Duration).optimize = ⟨0, TimeUnit.NS⟩ := by
  have hfind : TimeUnit.scanOrder.find? (⟨0, TimeUnit.NS⟩ : Duration).band = none := by
    rw [List.find?_eq_none]
    intro u hu
    simp only [Duration.band, Bool.and_eq_true, decide_eq_true_eq, not_and]
    intro _
    cases u <;> norm_num [Duration.to_float, TimeUnit.value]
  rw [duration_optimize_eq, hfind]
  norm_num [Duration.in_unit, TimeUnit.value]

theorem mv_zero_optimize :
    (⟨0, Scale.NANO, "B"⟩ : MetricValue).optimize = ⟨0, Scale.NANO, "B"⟩ := by
  have hfind : Scale.ladder.find? (⟨0, Scale.NANO, "B"⟩ : MetricValue).band = none := by
    rw [List.find?_eq_none]
    intro sc hsc
    simp only [MetricValue.band, Bool.and_eq_true, decide_eq_true_eq, not_and]
    intro _
    cases sc <;> norm_num [MetricValue.to_float, Scale.value]
  rw [mv_optimize_eq, hfind]
  norm_num [MetricValue.in_unit, Scale.value]

/-- C3 witness: the zero duration and the zero quantity `0 nB`, rendered
with the constant renderer `"0.0"`, both round-trip. -/
theorem c3_roundtrip_witness :
    parseNumeral ((fun _ : ℚ => "0.0") (⟨0, TimeUnit.NS⟩ : Duration).optimize.value).data
        = some (⟨false, 0, 0, 1, 0⟩, []) ∧
    NumParts.val ⟨false, 0, 0, 1, 0⟩ = (⟨0, TimeUnit.NS⟩ : Duration).optimize.value ∧
    Duration.value_of (Duration.str (fun _ => "0.0") (⟨0, TimeUnit.NS⟩ : Duration).optimize)
        = .ok (⟨0, TimeUnit.NS⟩ : Duration).optimize ∧
    ((⟨0, Scale.NANO, "B"⟩ : MetricValue).optimize.phys_unit ≠ "") ∧
    MetricValue.value_of
        (MetricValue.str (fun _ => "0.0") (⟨0, Scale.NANO, "B"⟩ : MetricValue).optimize)
        = .ok (⟨0, Scale.NANO, "B"⟩ : MetricValue).optimize := by
  have h1 : parseNumeral ("0.0").data = some (⟨false, 0, 0, 1, 0⟩, []) := by decide
  have h2 : NumParts.val ⟨false, 0, 0, 1, 0⟩ = (⟨0, TimeUnit.NS⟩ : Duration).optimize.value := by
    rw [duration_zero_optimize]
    norm_num [NumParts.val]
  have h2m : NumParts.val ⟨false, 0, 0, 1, 0⟩
      = (⟨0, Scale.NANO, "B"⟩ : MetricValue).optimize.value := by
    rw [mv_zero_optimize]
    norm_num [NumParts.val]
  have hne : (⟨0, Scale.NANO, "B"⟩ : MetricValue).optimize.phys_unit ≠ "" := by
    rw [mv_zero_optimize]
    decide
  have hws : ∀ c ∈ (⟨0, Scale.NANO, "B"⟩ : MetricValue).optimize.phys_unit.data,
      isPyWs c = false := by
    rw [mv_zero_optimize]
    decide
  have hhead : (⟨0, Scale.NANO, "B"⟩ : MetricValue).optimize.scale = Scale.UNIT →
      ∀ c t, (⟨0, Scale.NANO, "B"⟩ : MetricValue).optimize.phys_unit.data = c :: t →
        c ∉ (['n', 'u', 'm', 'K', 'M', 'G'] : List Char) := by
    rw [mv_zero_optimize]
    intro hcon
    exact absurd hcon (by decide)
  obtain ⟨h3, -⟩ := c3_roundtrip.1 (fun _ => "0.0") ⟨0, TimeUnit.NS⟩ ⟨false, 0, 0, 1, 0⟩ h1 h2
  obtain ⟨h4, -⟩ := c3_roundtrip.2 (fun _ => "0.0") ⟨0, Scale.NANO, "B"⟩ ⟨false, 0, 0, 1, 0⟩
    h1 h2m hne hws hhead
  exact ⟨h1, h2, h3, hne, h4⟩

/-! ## Character classes of a matched literal, for Frequency parsing -/

theorem parseExpPart_chars (cs : List Char) (e : ℤ) (h : parseExpPart cs = (e, [])) :
    ∀ c ∈ cs, isDigitChar c = true ∨ c ∈ (['-', '.', 'e', 'E', '+'] : List Char) := by
  cases cs with
  | nil => simp
  | cons c t =>
    simp only [parseExpPart] at h
    by_cases hce : c = 'e' ∨ c = 'E'
    · rw [if_pos hce] at h
      by_cases hed : ((signSplit t).2.takeWhile isDigitChar).isEmpty
      · rw [if_pos hed] at h
        exact absurd (congrArg Prod.snd h) (by simp)
      · rw [if_neg hed] at h
        have hdrop : (signSplit t).2.dropWhile isDigitChar = [] := congrArg Prod.snd h
        have hsg2 : ∀ y ∈ (signSplit t).2, isDigitChar y = true := by
          intro y hy
          have hy' : (signSplit t).2 = (signSplit t).2.takeWhile isDigitChar := by
            conv_lhs => rw [← List.takeWhile_append_dropWhile isDigitChar (signSplit t).2]
            rw [hdrop, List.append_nil]
          rw [hy'] at hy
          exact List.mem_takeWhile_imp hy
        intro x hx
        rcases List.mem_cons.mp hx with rfl | hxt
        · right
          rcases hce with rfl | rfl <;> simp
        · cases t with
          | nil => simp at hxt
          | cons d t2 =>
            by_cases hd1 : d = '+'
            · subst hd1
              rcases List.mem_cons.mp hxt with rfl | hxt2
              · right; simp
              · exact Or.inl (hsg2 x hxt2)
            · by_cases hd2 : d = '-'
              · subst hd2
                rcases List.mem_cons.mp hxt with rfl | hxt2
                · right; simp
                · exact Or.inl (hsg2 x hxt2)
              · rw [signSplit_cons_other d t2 hd1 hd2] at hsg2
                exact Or.inl (hsg2 x hxt)
    · rw [if_neg hce] at h
      exact absurd (congrArg Prod.snd h) (by simp)

theorem parseFracPart_chars (cs : List Char) :
    ∀ c ∈ cs, (isDigitChar c = true ∨ c = '.') ∨ c ∈ (parseFracPart cs).2.2 := by
  cases cs with
  | nil => simp
  | cons c0 t =>
    by_cases hc0 : c0 = '.'
    · subst hc0
      simp only [parseFracPart]
      by_cases hfd : (t.takeWhile isDigitChar).isEmpty
      · simp only [hfd, if_true]
        intro c hc
        exact Or.inr hc
      · simp only [hfd, if_false]
        intro c hc
        rcases List.mem_cons.mp hc with rfl | hct
        · exact Or.inl (Or.inr rfl)
        · conv at hct => rw [← List.takeWhile_append_dropWhile isDigitChar t]
          rcases List.mem_append.mp hct with hl | hr
          · exact Or.inl (Or.inl (List.mem_takeWhile_imp hl))
          · exact Or.inr hr
    · rw [parseFracPart_not_dot c0 t hc0]
      intro c hc
      exact Or.inr hc

theorem parseNumeral_chars (ns : List Char) (p : NumParts)
    (h : parseNumeral ns = some (p, [])) :
    ∀ c ∈ ns, isDigitChar c = true ∨ c ∈ (['-', '.', 'e', 'E', '+'] : List Char) := by
  cases ns with
  | nil => simp
  | cons c0 t =>
    simp only [parseNumeral] at h
    by_cases hip : ((parseSign (c0 :: t)).2.takeWhile isDigitChar).isEmpty
    · rw [if_pos hip] at h
      exact absurd h (by simp)
    · rw [if_neg hip] at h
      have hrest : (parseExpPart
          (parseFracPart ((parseSign (c0 :: t)).2.dropWhile isDigitChar)).2.2).2 = [] :=
        congrArg Prod.snd (Option.some.inj h)
      have hexp : parseExpPart
          (parseFracPart ((parseSign (c0 :: t)).2.dropWhile isDigitChar)).2.2
          = ((parseExpPart
            (parseFracPart ((parseSign (c0 :: t)).2.dropWhile isDigitChar)).2.2).1, []) := by
        rw [← hrest]
      have hsg2 : ∀ c ∈ (parseSign (c0 :: t)).2,
          isDigitChar c = true ∨ c ∈ (['-', '.', 'e', 'E', '+'] : List Char) := by
        intro c hc
        conv at hc => rw [← List.takeWhile_append_dropWhile isDigitChar (parseSign (c0 :: t)).2]
        rcases List.mem_append.mp hc with hl | hr
        · exact Or.inl (List.mem_takeWhile_imp hl)
        · rcases parseFracPart_chars _ c hr with hd | hfr
          · rcases hd with hd | hd
            · exact Or.inl hd
            · exact Or.inr (by simp [hd])
          · exact parseExpPart_chars _ _ hexp c hfr
      intro c hc
      by_cases hc0 : c0 = '-'
      · subst hc0
        rcases List.mem_cons.mp hc with rfl | hct
        · exact Or.inr (by simp)
        · exact hsg2 c hct
      · rw [parseSign_cons_other c0 t hc0] at hsg2
        exact hsg2 c hc

theorem numeral_char_cases (c : Char)
    (h : isDigitChar c = true ∨ c ∈ (['-', '.', 'e', 'E', '+'] : List Char)) :
    isPyWs c = false ∧ c ≠ 'g' ∧ c ≠ 'm' ∧ c ≠ 'k' ∧ c ≠ 'h' := by
  rcases h with hd | hm
  · have hmem : c ∈ ['0', '1', '2', '3', '4', '5', '6', '7', '8', '9'] := of_decide_eq_true hd
    fin_cases hmem <;> exact ⟨by decide, by decide, by decide, by decide, by decide⟩
  · fin_cases hm <;> exact ⟨by decide, by decide, by decide, by decide, by decide⟩

theorem list_map_id (f : Char → Char) (l : List Char) (h : ∀ c ∈ l, f c = c) :
    l.map f = l := by
  induction l with
  | nil => rfl
  | cons c t ih =>
    rw [List.map_cons, h c (List.mem_cons_self c t),
      ih (fun d hd => h d (List.mem_cons_of_mem c hd))]

theorem pyLower_numeral (ns : List Char) (p : NumParts)
    (h : parseNumeral ns = some (p, [])) (hE : 'E' ∉ ns) :
    pyLower ns = ns := by
  refine list_map_id pyLowerChar ns ?_
  intro c hc
  rcases parseNumeral_chars ns p h c hc with hd | hm
  · have hmem : c ∈ ['0', '1', '2', '3', '4', '5', '6', '7', '8', '9'] := of_decide_eq_true hd
    fin_cases hmem <;> decide
  · fin_cases hm
    · decide
    · decide
    · decide
    · exact absurd hc hE
    · decide

theorem rtrimWs_append_last (l : List Char) (c : Char) (hc : isPyWs c = false) :
    rtrimWs (l ++ [c]) = l ++ [c] := by
  unfold rtrimWs
  rw [List.reverse_append, show ([c] : List Char).reverse = [c] from rfl,
    show ([c] : List Char) ++ l.reverse = c :: l.reverse from rfl,
    List.dropWhile_cons_of_neg (by simp [hc]), List.reverse_cons, List.reverse_reverse]

theorem isPrefixOf_self (l : List Char) : l.isPrefixOf l = true := by
  induction l with
  | nil => rfl
  | cons c t ih => simp [List.isPrefixOf, ih]

theorem replaceAllGo_skip_all (pat t : List Char) : replaceAllGo pat t t.length = [] := by
  induction t with
  | nil => rfl
  | cons c t ih => exact ih

theorem replaceAll_append_pat (xs pt : List Char) (ph : Char)
    (hx : ∀ c ∈ xs, c ≠ ph) :
    replaceAll (xs ++ (ph :: pt)) (ph :: pt) = xs := by
  induction xs with
  | nil =>
    show replaceAllGo (ph :: pt) (ph :: pt) 0 = []
    unfold replaceAllGo
    rw [if_pos ⟨by simp, isPrefixOf_self (ph :: pt)⟩,
      show (ph :: pt).length - 1 = pt.length from by simp]
    exact replaceAllGo_skip_all (ph :: pt) pt
  | cons c xs ih =>
    have hc : c ≠ ph := hx c (List.mem_cons_self c xs)
    show replaceAllGo (ph :: pt) (c :: (xs ++ (ph :: pt))) 0 = c :: xs
    unfold replaceAllGo
    rw [if_neg (fun hcon => by
      have hpre := hcon.2
      simp only [List.isPrefixOf, Bool.and_eq_true] at hpre
      exact absurd (eq_of_beq hpre.1).symm hc)]
    exact congrArg (c :: ·) (ih (fun d hd => hx d (List.mem_cons_of_mem c hd)))

theorem endsWithL_append_self (w pat : List Char) : endsWithL (w ++ pat) pat = true := by
  simp only [endsWithL, List.length_append]
  rw [show w.length + pat.length - pat.length = w.length from by omega, List.drop_left]
  simp

theorem endsWithL_append_ne (w p q : List Char) (hlen : p.length = q.length) (hne : p ≠ q) :
    endsWithL (w ++ p) q = false := by
  simp only [endsWithL, List.length_append]
  rw [show w.length + p.length - q.length = w.length from by omega, List.drop_left]
  simp [hne]

theorem endsWithL_append_longer (w p : List Char) (qh : Char)
    (hw : ∀ c ∈ w, c ≠ qh) :
    endsWithL (w ++ p) (qh :: p) = false := by
  by_cases hwe : w = []
  · subst hwe
    simp only [endsWithL, List.nil_append, List.length_cons]
    rw [decide_eq_false (by omega)]
    rfl
  · have hwlen : 1 ≤ w.length := by
      cases w with
      | nil => exact absurd rfl hwe
      | cons a b => simp
    simp only [endsWithL, List.length_append, List.length_cons]
    rw [show w.length + p.length - (p.length + 1) = w.length - 1 from by omega]
    rw [List.drop_append_of_le_length (by omega)]
    have hdlen : (w.drop (w.length - 1)).length = 1 := by
      rw [List.length_drop]
      omega
    cases hd : w.drop (w.length - 1) with
    | nil => rw [hd] at hdlen; simp at hdlen
    | cons a rest =>
      rw [hd] at hdlen
      simp only [List.length_cons] at hdlen
      have hrest : rest = [] := List.length_eq_zero.mp (by omega)
      subst hrest
      have ha : a ∈ w := (List.drop_subset _ _) (hd ▸ List.mem_cons_self a [])
      have hane : a ≠ qh := hw a ha
      rw [show ([a] : List Char) ++ p = a :: p from rfl]
      simp [hane]

theorem pyExpPart_of_full (cs : List Char) (e : ℤ) (h : parseExpPart cs = (e, [])) :
    pyExpPart cs = some e := by
  unfold pyExpPart
  rw [h]
  rfl

theorem pyFloatParse_of_numeral (w : List Char) (p : NumParts)
    (h : parseNumeral w = some (p, [])) :
    pyFloatParse w = some p := by
  have hws : ∀ c ∈ w, isPyWs c = false :=
    fun c hc => (numeral_char_cases c (parseNumeral_chars w p h c hc)).1
  have hstrip : pyStrip w = w := by
    unfold pyStrip
    rw [dropWhile_of_all_false isPyWs w hws, rtrimWs_no_ws w hws]
  cases w with
  | nil => exact absurd h (by simp [parseNumeral, parseSign])
  | cons c0 t =>
    simp only [parseNumeral] at h
    by_cases hip : ((parseSign (c0 :: t)).2.takeWhile isDigitChar).isEmpty
    · rw [if_pos hip] at h
      exact absurd h (by simp)
    · rw [if_neg hip] at h
      have hinj := Option.some.inj h
      have hrest : (parseExpPart
          (parseFracPart ((parseSign (c0 :: t)).2.dropWhile isDigitChar)).2.2).2 = [] :=
        congrArg Prod.snd hinj
      have hp : (⟨(parseSign (c0 :: t)).1,
          digitsVal ((parseSign (c0 :: t)).2.takeWhile isDigitChar),
          (parseFracPart ((parseSign (c0 :: t)).2.dropWhile isDigitChar)).1,
          (parseFracPart ((parseSign (c0 :: t)).2.dropWhile isDigitChar)).2.1,
          (parseExpPart
            (parseFracPart ((parseSign (c0 :: t)).2.dropWhile isDigitChar)).2.2).1⟩ : NumParts)
          = p :=
        congrArg Prod.fst hinj
      have hsgeq : signSplit (pyStrip (c0 :: t)) = parseSign (c0 :: t) := by
        rw [hstrip]
        by_cases hc0 : c0 = '-'
        · subst hc0; rfl
        · have hd : isDigitChar c0 = true := by
            rw [parseSign_cons_other c0 t hc0] at hip
            by_contra hnd
            rw [List.takeWhile_cons_of_neg (by simpa using hnd)] at hip
            exact hip rfl
          have hplus : c0 ≠ '+' := by
            have hmem : c0 ∈ ['0', '1', '2', '3', '4', '5', '6', '7', '8', '9'] :=
              of_decide_eq_true hd
            fin_cases hmem <;> decide
          rw [signSplit_cons_other c0 t hplus hc0, parseSign_cons_other c0 t hc0]
      simp only [pyFloatParse]
      rw [hsgeq]
      cases hdw : (parseSign (c0 :: t)).2.dropWhile isDigitChar with
      | nil =>
        rw [hdw] at hrest hp
        rw [show parseFracPart ([] : List Char) = (0, 0, []) from rfl] at hrest hp
        dsimp only
        rw [if_neg hip, show pyExpPart ([] : List Char) = some 0 from rfl]
        rw [← hp]
        rfl
      | cons d t2 =>
        rw [hdw] at hrest hp
        by_cases hd : d = '.'
        · subst hd
          simp only [parseFracPart] at hrest hp
          by_cases hfd : (t2.takeWhile isDigitChar).isEmpty
          · rw [if_pos hfd] at hrest hp
            simp only [parseExpPart] at hrest
            rw [if_neg (by decide)] at hrest
            exact absurd hrest (by simp)
          · rw [if_neg hfd] at hrest hp
            split
            · next t3 heq =>
              obtain ⟨-, ht⟩ := List.cons.inj heq
              subst ht
              rw [if_neg (by
                intro hcon
                rw [Bool.and_eq_true] at hcon
                exact hip hcon.1)]
              rw [pyExpPart_of_full _ _ (by rw [← hrest])]
              rw [← hp]
            · next hne =>
              exact absurd rfl (hne t2)
        · rw [parseFracPart_not_dot d t2 hd] at hrest hp
          split
          · next t3 heq =>
            obtain ⟨hdd, -⟩ := List.cons.inj heq
            exact absurd hdd hd
          · rw [if_neg hip]
            rw [pyExpPart_of_full _ _ (by rw [← hrest])]
            rw [← hp]

/-! ## Frequency parsing (C5) -/

theorem frequency_parse_literal (w : List Char) (p : NumParts) (ltok : List Char)
    (u : FrequencyUnit)
    (hn : parseNumeral w = some (p, [])) (hE : 'E' ∉ w)
    (hmem : (ltok, u) ∈ ([(['g', 'h', 'z'], FrequencyUnit.GHz),
      (['m', 'h', 'z'], FrequencyUnit.MHz),
      (['k', 'h', 'z'], FrequencyUnit.KHz),
      (['h', 'z'], FrequencyUnit.Hz)] : List (List Char × FrequencyUnit))) :
    Frequency.value_of (.str (String.mk (w ++ ltok))) = .ok ⟨p.val, u⟩ := by
  have hcc : ∀ c ∈ w, isPyWs c = false ∧ c ≠ 'g' ∧ c ≠ 'm' ∧ c ≠ 'k' ∧ c ≠ 'h' :=
    fun c hc => numeral_char_cases c (parseNumeral_chars w p hn c hc)
  have hlow' : List.map pyLowerChar w = w := pyLower_numeral w p hn hE
  have hfl : pyFloat w = .ok p.val := by
    unfold pyFloat
    rw [pyFloatParse_of_numeral w p hn]
  have hts : ∀ c ∈ ltok, isPyWs c = false ∧ pyLowerChar c = c := by
    fin_cases hmem <;> (intro c hc; fin_cases hc <;> exact ⟨by decide, by decide⟩)
  have hws2 : ∀ c ∈ w ++ ltok, isPyWs c = false := by
    intro c hc
    rcases List.mem_append.mp hc with hcw | hct
    · exact (hcc c hcw).1
    · exact (hts c hct).1
  have hstrip : pyStrip (w ++ ltok) = w ++ ltok := by
    unfold pyStrip
    rw [dropWhile_of_all_false isPyWs _ hws2, rtrimWs_no_ws _ hws2]
  have hlow2 : pyLower (w ++ ltok) = w ++ ltok := by
    show (w ++ ltok).map pyLowerChar = w ++ ltok
    rw [List.map_append, hlow', list_map_id pyLowerChar ltok (fun c hc => (hts c hc).2)]
  fin_cases hmem
  · simp only [Frequency.value_of]
    rw [hstrip, hlow2, endsWithL_append_self w ['g', 'h', 'z'], if_pos rfl,
      replaceAll_append_pat w ['h', 'z'] 'g' (fun c hc => (hcc c hc).2.1), hfl]
    rfl
  · simp only [Frequency.value_of]
    rw [hstrip, hlow2,
      endsWithL_append_ne w ['m', 'h', 'z'] ['g', 'h', 'z'] rfl (by decide),
      if_neg Bool.false_ne_true,
      endsWithL_append_self w ['m', 'h', 'z'], if_pos rfl,
      replaceAll_append_pat w ['h', 'z'] 'm' (fun c hc => (hcc c hc).2.2.1), hfl]
    rfl
  · simp only [Frequency.value_of]
    rw [hstrip, hlow2,
      endsWithL_append_ne w ['k', 'h', 'z'] ['g', 'h', 'z'] rfl (by decide),
      if_neg Bool.false_ne_true,
      endsWithL_append_ne w ['k', 'h', 'z'] ['m', 'h', 'z'] rfl (by decide),
      if_neg Bool.false_ne_true,
      endsWithL_append_self w ['k', 'h', 'z'], if_pos rfl,
      replaceAll_append_pat w ['h', 'z'] 'k' (fun c hc => (hcc c hc).2.2.2.1), hfl]
    rfl
  · simp only [Frequency.value_of]
    rw [hstrip, hlow2,
      endsWithL_append_longer w ['h', 'z'] 'g' (fun c hc => (hcc c hc).2.1),
      if_neg Bool.false_ne_true,
      endsWithL_append_longer w ['h', 'z'] 'm' (fun c hc => (hcc c hc).2.2.1),
      if_neg Bool.false_ne_true,
      endsWithL_append_longer w ['h', 'z'] 'k' (fun c hc => (hcc c hc).2.2.2.1),
      if_neg Bool.false_ne_true,
      endsWithL_append_self w ['h', 'z'], if_pos rfl,
      replaceAll_append_pat w ['z'] 'h' (fun c hc => (hcc c hc).2.2.2.2), hfl]
    rfl

/-- C5 counterexample: `"hz1hz"` ends with the suffix `hz`, and the
spec's numeric prefix — everything before the matched suffix, here
`"hz1"` — is not a numeric literal, so the claim predicts `ParseError`;
the code instead removes ALL occurrences of the suffix
(`str.replace`), calls `float("1")`, and returns `Frequency(1.0, Hz)`.
Conversely for `"xhz"` a suffix matches but the cleaned text `"x"` is
not numeric, and the escaping error is `float`'s `ValueError`, not the
`ParseError`-kind `RuntimeError` the claim requires. -/
theorem c5_counterexample :
    Frequency.value_of (.str "hz1hz") = .ok ⟨1, FrequencyUnit.Hz⟩ ∧
    pyFloat (specNumPrefixOf (pyLower (pyStrip "hz1hz".data)) ['h', 'z'])
      = .error (.valueError "could not convert string to float") ∧
    Frequency.value_of (.str "xhz")
      = .error (.valueError "could not convert string to float") := by
  refine ⟨?_, rfl, rfl⟩
  have h : Frequency.value_of (.str "hz1hz")
      = .ok ⟨(⟨false, 1, 0, 0, 0⟩ : NumParts).val, FrequencyUnit.Hz⟩ := rfl
  have hv : (⟨false, 1, 0, 0, 0⟩ : NumParts).val = 1 := by
    norm_num [NumParts.val]
  rw [h, hv]

/-- **C5** (amended): `Frequency.value_of` lower-cases the stripped
text and tests the suffixes ghz, mhz, khz, hz in that order; the
`ParseError`-kind `RuntimeError` is raised exactly when NO suffix
matches.  When a suffix matches, the magnitude is `float()` of the
text with all occurrences of the suffix removed (`str.replace`) — for
a shared-grammar numeric literal followed by the suffix this is the
literal's value and the matched suffix's unit.  A matched suffix with
a non-numeric remainder surfaces `float`'s `ValueError` instead of
`ParseError`, as `"xhz"` shows; and mixed-case input such as
`"2.5GHz"` is accepted via the lower-casing. -/
theorem c5_frequency_parse_rule :
    (∀ s : String,
      endsWithL (pyLower (pyStrip s.data)) ['g', 'h', 'z'] = false →
      endsWithL (pyLower (pyStrip s.data)) ['m', 'h', 'z'] = false →
      endsWithL (pyLower (pyStrip s.data)) ['k', 'h', 'z'] = false →
      endsWithL (pyLower (pyStrip s.data)) ['h', 'z'] = false →
      Frequency.value_of (.str s)
        = .error (.runtimeError ("Unable to parse [" ++ s ++ "]"))) ∧
    (∀ (w : List Char) (p : NumParts) (ltok : List Char) (u : FrequencyUnit),
      parseNumeral w = some (p, []) → 'E' ∉ w →
      (ltok, u) ∈ ([(['g', 'h', 'z'], FrequencyUnit.GHz),
        (['m', 'h', 'z'], FrequencyUnit.MHz),
        (['k', 'h', 'z'], FrequencyUnit.KHz),
        (['h', 'z'], FrequencyUnit.Hz)] : List (List Char × FrequencyUnit)) →
      Frequency.value_of (.str (String.mk (w ++ ltok))) = .ok ⟨p.val, u⟩) ∧
    Frequency.value_of (.str "xhz1")
      = .error (.runtimeError "Unable to parse [xhz1]") ∧
    Frequency.value_of (.str "2.5GHz") = .ok ⟨5 / 2, FrequencyUnit.GHz⟩ := by
  refine ⟨?_, fun w p ltok u hn hE hmem =>
    frequency_parse_literal w p ltok u hn hE hmem, rfl, ?_⟩
  · intro s h1 h2 h3 h4
    simp [Frequency.value_of, h1, h2, h3, h4]
  · have h : Frequency.value_of (.str "2.5GHz")
        = .ok ⟨(⟨false, 2, 5, 1, 0⟩ : NumParts).val, FrequencyUnit.GHz⟩ := rfl
    have hv : (⟨false, 2, 5, 1, 0⟩ : NumParts).val = 5 / 2 := by
      norm_num [NumParts.val]
    rw [h, hv]

/-- Witness for C5: `"q"` matches no suffix and raises the parse
error, and the literal `['2']` followed by the suffix `ghz` parses to
the frequency with magnitude 2 and unit GHz. -/
theorem c5_frequency_parse_rule_witness :
    Frequency.value_of (.str "q") = .error (.runtimeError "Unable to parse [q]") ∧
    Frequency.value_of (.str (String.mk (['2'] ++ ['g', 'h', 'z'])))
      = .ok ⟨(⟨false, 2, 0, 0, 0⟩ : NumParts).val, FrequencyUnit.GHz⟩ :=
  ⟨c5_frequency_parse_rule.1 "q" (by decide) (by decide) (by decide) (by decide),
    c5_frequency_parse_rule.2.1 ['2'] ⟨false, 2, 0, 0, 0⟩ ['g', 'h', 'z']
      FrequencyUnit.GHz (by decide) (by decide) (by simp)⟩
